import Mathlib

/-!
# opus-go: sample/byte conversion, frame-size negotiation, `Decode` and `Flush`

A shallow embedding of `opus/opus.go`.

* A `byte` is a natural number below 256 and an `int16` an integer in
  `[-32768, 32767]`; conversions between widths are written out with `%`.
* A Go slice is a `List`; a run-time panic (slice bounds, index out of range)
  is the result `none`.
* `uint` and `int` are 64 bits wide: `uint` arithmetic wraps at `2^64`, and the
  conversion `int(u)` reads the 64 bits of `u` as two's complement.
* A `float32` is a value of `F32`: a rational number, an infinity or NaN. The
  conversion `float32(n)` and the product of two `float32` values round their
  exact result to 24 significant bits, to nearest with ties to even, with the
  subnormal spacing `2^-149` and overflow to an infinity from `2^128` on
  (`roundF32`). Comparisons with NaN are false. The field `FrameSize` is any
  `float32`, negative values, infinities and NaN included.
* A conversion `uint(f)` whose truncated value is not a `uint` is left to the
  implementation by Go; it is the parameter `impl` of the model, and `gcAmd64`
  is one such implementation.
* The container adapter `ogg.Stream` and the codec `opus.Decoder` are parameters:
  their methods are functions on a state, returning the new state with their
  results. The loop of `Decode` has no bound of its own, so the model runs it
  for at most `fuel` iterations and gives `none` when that is not enough.
-/

namespace Opus

/-! ## Machine integers -/

/-- The value is a byte. -/
def IsByte (b : Nat) : Prop := b < 256

/-- The value is an `int16`. -/
def IsInt16 (x : Int) : Prop := -32768 ≤ x ∧ x ≤ 32767

instance (b : Nat) : Decidable (IsByte b) := by unfold IsByte; infer_instance

instance (x : Int) : Decidable (IsInt16 x) := by unfold IsInt16; infer_instance

/-- Conversion `int16(u)` of a `uint16`: the two's-complement reading of the
low 16 bits. -/
def toInt16 (u : Nat) : Int :=
  if u % 65536 < 32768 then ((u % 65536 : Nat) : Int) else ((u % 65536 : Nat) : Int) - 65536

/-- Conversion `uint16(x)` of an `int16`: the value modulo `2^16`. -/
def toUint16 (x : Int) : Nat := (x % 65536).toNat

/-- Conversion `byte(v)`: the low 8 bits. -/
def toByte (v : Nat) : Nat := v % 256

/-! ## Slices and `encoding/binary` -/

/-- Slice expression `buf[lo:]`; panics when `lo > len(buf)`. -/
def sliceFrom (buf : List Nat) (lo : Nat) : Option (List Nat) :=
  if lo ≤ buf.length then some (buf.drop lo) else none

/-- The call `binary.LittleEndian.Uint16(b)`:
`uint16(b[0]) | uint16(b[1])<<8`, panics when `len(b) < 2`. -/
def leUint16 : List Nat → Option Nat
  | b0 :: b1 :: _ => some (b0 ||| (b1 <<< 8))
  | _ => none

/-- The call `binary.LittleEndian.PutUint16(output[lo:hi], v)` with `lo = 2*i`
and `hi = 2*(i+1)`: the slice expression panics when `hi > len(output)`, the
call stores `byte(v)` at `lo` and `byte(v >> 8)` at `lo + 1`. -/
def putUint16At (output : List Nat) (lo hi v : Nat) : Option (List Nat) :=
  if lo ≤ hi ∧ hi ≤ output.length then
    if hi - lo < 2 then none
    else some ((output.set lo (toByte v)).set (lo + 1) (toByte (v >>> 8)))
  else none

/-! ## `bytesToSamples` and `samplesToBytes` -/

/-- The loop of `bytesToSamples`, with `k` iterations left to run, the loop
variable at `i` and the output slice `samples`. -/
def bytesToSamplesLoop (buf : List Nat) : Nat → Nat → List Int → Option (List Int)
  | 0, _, samples => some samples
  | k + 1, i, samples =>
    match sliceFrom buf (i * 2) with
    | none => none
    | some t =>
      match leUint16 t with
      | none => none
      | some u =>
        if i < samples.length then
          bytesToSamplesLoop buf k (i + 1) (samples.set i (toInt16 u))
        else none

/-- Function `bytesToSamples`: `make([]int16, len(buf)/2)` and then the loop
`for i := 0; i < len(buf)/2; i++`. -/
def bytesToSamples (buf : List Nat) : Option (List Int) :=
  bytesToSamplesLoop buf (buf.length / 2) 0 (List.replicate (buf.length / 2) 0)

/-- The loop of `samplesToBytes`, with `k` iterations left to run, the loop
variable at `i` and the output slice `output`. -/
def samplesToBytesLoop (buf : List Int) : Nat → Nat → List Nat → Option (List Nat)
  | 0, _, output => some output
  | k + 1, i, output =>
    match buf[i]? with
    | none => none
    | some x =>
      match putUint16At output (2 * i) (2 * (i + 1)) (toUint16 x) with
      | none => none
      | some output1 => samplesToBytesLoop buf k (i + 1) output1

/-- Function `samplesToBytes`: `make([]byte, len(buf)*2)` and then the loop
`for i := 0; i < len(buf); i++`. -/
def samplesToBytes (buf : List Int) : Option (List Nat) :=
  samplesToBytesLoop buf buf.length 0 (List.replicate (buf.length * 2) 0)
/-- Conversion `int(u)` of a `uint`: the two's-complement reading of the low
64 bits. -/
def toInt (u : Nat) : Int :=
  if u % 2 ^ 64 < 2 ^ 63 then ((u % 2 ^ 64 : Nat) : Int) else ((u % 2 ^ 64 : Nat) : Int) - 2 ^ 64

/-! ## `float32` -/

/-- Rounding of a rational to the nearest integer, a tie going to the even one. -/
def roundHalfEven (t : ℚ) : ℤ :=
  if t - ⌊t⌋ < 1 / 2 then ⌊t⌋
  else if 1 / 2 < t - ⌊t⌋ then ⌊t⌋ + 1
  else if ⌊t⌋ % 2 = 0 then ⌊t⌋ else ⌊t⌋ + 1

/-- Exponent of the unit in the last place of a `float32` of magnitude `x`: 24
significant bits, and `2^-149` throughout the subnormal range. -/
def ulpExp (x : ℚ) : ℤ := max (Int.log 2 x - 23) (-149)

/-- Rounding of a magnitude `x >= 0` to 24 significant bits, ties to even, with
no upper bound on the exponent. -/
def roundMag (x : ℚ) : ℚ := (roundHalfEven (x / 2 ^ ulpExp x) : ℚ) * 2 ^ ulpExp x

/-- A `float32` value: a number, an infinity or NaN; the two zeros are both
`num 0`. The operations below round their results, so the `q` of a `num q` that
results from one is a number `float32` represents. -/
inductive F32 where
  | num (q : ℚ)
  | posInf
  | negInf
  | nan
  deriving DecidableEq

/-- Rounding of the exact result `x` of an operation to `float32`: to nearest,
ties to even, and to an infinity from `2^128` on. -/
def roundF32 (x : ℚ) : F32 :=
  if 0 ≤ x then
    if roundMag x < 2 ^ 128 then .num (roundMag x) else .posInf
  else
    if roundMag (-x) < 2 ^ 128 then .num (-roundMag (-x)) else .negInf

/-- The product `a * b` of two `float32` values. -/
def mulF32 : F32 → F32 → F32
  | .num a, .num b => roundF32 (a * b)
  | .nan, _ => .nan
  | _, .nan => .nan
  | .posInf, .num b => if b = 0 then .nan else if 0 < b then .posInf else .negInf
  | .negInf, .num b => if b = 0 then .nan else if 0 < b then .negInf else .posInf
  | .num a, .posInf => if a = 0 then .nan else if 0 < a then .posInf else .negInf
  | .num a, .negInf => if a = 0 then .nan else if 0 < a then .negInf else .posInf
  | .posInf, .posInf => .posInf
  | .posInf, .negInf => .negInf
  | .negInf, .posInf => .negInf
  | .negInf, .negInf => .posInf

/-- The comparison `a >= b` of two `float32` values; it is false when one of
them is NaN. -/
def geF32 : F32 → F32 → Bool
  | .num a, .num b => decide (b ≤ a)
  | .num _, .negInf => true
  | .posInf, .num _ => true
  | .posInf, .posInf => true
  | .posInf, .negInf => true
  | .negInf, .negInf => true
  | _, _ => false

/-- Conversion `float32(n)` of a `uint`. -/
def uintToF32 (n : Nat) : F32 := roundF32 (n : ℚ)

/-- Conversion `uint(f)` of a `float32`: the fraction is discarded when the
truncated value is a `uint`; otherwise Go leaves the result to the
implementation, here `impl f` reduced to 64 bits. -/
def floatToUint (impl : F32 → Nat) (f : F32) : Nat :=
  match f with
  | .num q => if -1 < q ∧ q < 2 ^ 64 then ⌊q⌋₊ else impl f % 2 ^ 64
  | _ => impl f % 2 ^ 64

/-- What the gc compiler gives on amd64 for a conversion `uint(f)` that Go leaves
to the implementation: a negative number down to `-2^63` is truncated to an
`int64` whose 64 bits are the result, and anything else gives `2^63`. -/
def gcAmd64 : F32 → Nat
  | .num q => if q < 0 ∧ -2 ^ 63 ≤ q then 2 ^ 64 - ⌊-q⌋₊ else 2 ^ 63
  | _ => 2 ^ 63

/-- The comparison `a < b` of two `float32` values; it is false when one of them
is NaN. -/
def ltF32 : F32 → F32 → Bool
  | .num a, .num b => decide (a < b)
  | .num _, .posInf => true
  | .negInf, .num _ => true
  | .negInf, .posInf => true
  | _, _ => false

/-! ## Closed forms used in the proofs -/

/-- The `uint16` read at byte offset `2 * j` of `buf`. -/
def wordAt (buf : List Nat) (j : Nat) : Nat :=
  buf.getD (2 * j) 0 ||| (buf.getD (2 * j + 1) 0 <<< 8)

/-- The byte that `samplesToBytes` stores at offset `m`. -/
def byteAt (buf : List Int) (m : Nat) : Nat :=
  if m % 2 = 0 then toByte (toUint16 (buf.getD (m / 2) 0))
  else toByte (toUint16 (buf.getD (m / 2) 0) >>> 8)

/-! ## The session and `getFrameSamples` -/

/-- The struct `OggStream`. `Stream` and `Decoder` are the states of the
container adapter `ogg.Stream` and of the codec `opus.Decoder`. -/
structure OggStream (Stream Decoder : Type) where
  SampleRate : Nat
  Channels : Nat
  Bitrate : Nat
  FrameSize : F32
  Complexity : Nat
  stream : Stream
  encbuf : List Nat
  decoder : Decoder

/-- The numbers held by the package variable `FrameSizes`. -/
def FrameSizes : List ℚ := [60, 40, 20, 10, 5, 5 / 2]

/-- The error of `getFrameSamples`, with the three numbers `fmt.Errorf` formats. -/
inductive FrameError where
  | noValidFrameSize (samples channels sampleRate : Nat)
  deriving DecidableEq

/-- The `uint` expression `s.Channels*s.SampleRate/1000`. -/
def samplesPerMs {Stream Decoder : Type} (s : OggStream Stream Decoder) : Nat :=
  s.Channels * s.SampleRate % 2 ^ 64 / 1000

/-- The closure `nSamples` of `getFrameSamples`:
`uint(fs * float32(s.Channels*s.SampleRate/1000))`. -/
def nSamples {Stream Decoder : Type} (impl : F32 → Nat) (s : OggStream Stream Decoder)
    (fs : F32) : Nat :=
  floatToUint impl (mulF32 fs (uintToF32 (samplesPerMs s)))

/-- The loop `for _, val := range FrameSizes` of `getFrameSamples`, over the
values still to visit: `some r` when it returns `r`, `none` when it runs out. -/
def scanFrameSizes {Stream Decoder : Type} (impl : F32 → Nat) (s : OggStream Stream Decoder)
    (samples : Nat) : List ℚ → Option Int
  | [] => none
  | val :: rest =>
    if geF32 (.num val) s.FrameSize then scanFrameSizes impl s samples rest
    else if nSamples impl s (.num val) ≤ samples then some (toInt (nSamples impl s (.num val)))
    else scanFrameSizes impl s samples rest

/-- The method `getFrameSamples`. -/
def getFrameSamples {Stream Decoder : Type} (impl : F32 → Nat) (s : OggStream Stream Decoder)
    (samples : Nat) : Except FrameError Int :=
  if nSamples impl s s.FrameSize ≤ samples then
    .ok (toInt (nSamples impl s s.FrameSize))
  else
    match scanFrameSizes impl s samples FrameSizes with
    | some r => .ok r
    | none => .error (.noValidFrameSize samples s.Channels s.SampleRate)

/-- A session with the given configuration and no collaborator state. -/
def mkSession (sampleRate channels : Nat) (frameSize : F32) : OggStream Unit Unit :=
  { SampleRate := sampleRate, Channels := channels, Bitrate := 0, FrameSize := frameSize,
    Complexity := 0, stream := (), encbuf := [], decoder := () }

/-- Stated from the spec's words: a duration is converted to samples via
`duration * channels * sampleRate / 1000`, truncated to an integer, the duration
an exact rational. -/
def specSamples {Stream Decoder : Type} (s : OggStream Stream Decoder) (duration : ℚ) : Nat :=
  ⌊duration * (s.Channels : ℚ) * (s.SampleRate : ℚ) / 1000⌋₊

/-! ## The collaborators of `Decode` and `Flush` -/

/-- The methods of the container adapter `ogg.Stream` that `opus.go` calls, as
functions on the adapter's state `Stream`. Package `ogg` is outside the source
at hand, so its methods are parameters of the model. `Err` is the type of the
`error` values; `none` stands for `nil`, of an error as of a slice. -/
structure OggAdapter (Stream Err : Type) where
  SubmitDecodeBytes : Stream → List Nat → Stream × Option Err
  DecodeBytesOut : Stream → Stream × Option (List Nat) × Option Err
  Flush : Stream → Stream × List Nat

/-- The method `Decode(in, out []byte)` of the codec `opus.Decoder`, as a
function on the codec's state `Decoder`: it gives the new state, the contents
of `out` after the call, what the codec reports about the packet (the two
results that `opus.go` discards, of type `Info`) and the error. The callee
writes into the caller's slice and cannot change its length. -/
structure OpusCodec (Decoder Info Err : Type) where
  Decode : Decoder → List Nat → List Nat → Decoder × List Nat × Info × Option Err
  Decode_length : ∀ d buf out, (Decode d buf out).2.1.length = out.length

/-- The loop `for { ... }` of `Decode`, run for at most `fuel` iterations from
the adapter state `st`, the codec state `d` and the accumulated `toReturn`. The
result holds the two states and the values returned; it is `none` when the loop
has not ended within `fuel` iterations. -/
def decodeLoop {Stream Decoder Info Err : Type} (A : OggAdapter Stream Err)
    (C : OpusCodec Decoder Info Err) :
    Nat → Stream → Decoder → List Nat → Option (Stream × Decoder × Option (List Nat) × Option Err)
  | 0, _, _, _ => none
  | fuel + 1, st, d, toReturn =>
    match A.DecodeBytesOut st with
    | (st1, _, some err) => some (st1, d, none, some err)
    | (st1, none, none) => some (st1, d, some toReturn, none)
    | (st1, some buf, none) =>
      match C.Decode d buf (List.replicate 2048 0) with
      | (d1, _, _, some err) => some (st1, d1, none, some err)
      | (d1, bytesOut, _, none) => decodeLoop A C fuel st1 d1 (toReturn ++ bytesOut)

/-- The method `Decode`: the session after the call and the two values returned,
or `none` when the loop has not ended within `fuel` iterations. -/
def Decode {Stream Decoder Info Err : Type} (A : OggAdapter Stream Err) (C : OpusCodec Decoder Info Err)
    (fuel : Nat) (s : OggStream Stream Decoder) (oggBytes : List Nat) :
    Option (OggStream Stream Decoder × Option (List Nat) × Option Err) :=
  match A.SubmitDecodeBytes s.stream oggBytes with
  | (st0, some err) => some ({ s with stream := st0 }, none, some err)
  | (st0, none) =>
    match decodeLoop A C fuel st0 s.decoder [] with
    | none => none
    | some (st1, d1, out, err) => some ({ s with stream := st1, decoder := d1 }, out, err)

/-- The method `Flush`: the session after the call and the bytes returned. -/
def Flush {Stream Decoder Err : Type} (A : OggAdapter Stream Err) (s : OggStream Stream Decoder) :
    OggStream Stream Decoder × List Nat :=
  ({ s with stream := (A.Flush s.stream).1 }, (A.Flush s.stream).2)

/-- From the states `st` and `d`, the adapter yields one packet after the other
and the codec decodes each without error into the buffers `outs`, in this order,
which leaves the states `st1` and `d1`. -/
inductive DecodesPackets {Stream Decoder Info Err : Type} (A : OggAdapter Stream Err)
    (C : OpusCodec Decoder Info Err) : Stream → Decoder → List (List Nat) → Stream → Decoder → Prop
  | nil (st : Stream) (d : Decoder) : DecodesPackets A C st d [] st d
  | cons {st st1 st2 : Stream} {d d1 d2 : Decoder} {buf bytesOut : List Nat} {info : Info}
      {outs : List (List Nat)}
      (hout : A.DecodeBytesOut st = (st1, some buf, none))
      (hdec : C.Decode d buf (List.replicate 2048 0) = (d1, bytesOut, info, none))
      (hrest : DecodesPackets A C st1 d1 outs st2 d2) :
      DecodesPackets A C st d (bytesOut :: outs) st2 d2

/-- A container adapter to run the model on: its state is the queue of the
packets not yet extracted; every submitted byte other than 255 is a packet of
its own, an empty submission is refused with error 1, and extracting the packet
`[0]` fails with error 2. -/
def queueAdapter : OggAdapter (List (List Nat)) Nat where
  SubmitDecodeBytes := fun st b =>
    if b.length = 0 then (st, some 1)
    else (st ++ (b.filter (fun x => x != 255)).map (fun x => [x]), none)
  DecodeBytesOut := fun st =>
    match st with
    | [] => ([], none, none)
    | p :: rest => if p = [0] then (rest, none, some 2) else (rest, some p, none)
  Flush := fun st => ([], st.flatten)

/-- A codec to run the model on: its state counts the packets decoded; it
overwrites every byte of the output buffer with the first byte of the packet and
reports the length of the packet, and it fails on the packet `[9]` with error 3. -/
def countingCodec : OpusCodec Nat Nat Nat where
  Decode := fun d buf out =>
    if buf = [9] then (d, out, 0, some 3)
    else (d + 1, out.map (fun _ => buf.headD 0), buf.length, none)
  Decode_length := by
    intro d buf out
    by_cases h : buf = [9] <;> simp [h]

/-- The queue adapter with an extraction that yields the packet `[1]` forever. -/
def endlessAdapter : OggAdapter (List (List Nat)) Nat :=
  { queueAdapter with DecodeBytesOut := fun st => (st, some [1], none) }

/-- A codec that fails on every packet with error 4. -/
def failingCodec : OpusCodec Nat Nat Nat where
  Decode := fun d _ out => (d, out, 0, some 4)
  Decode_length := fun _ _ _ => rfl

/-- A session over the queue adapter and the counting codec. -/
def queueSession (pending : List (List Nat)) (decoded : Nat) : OggStream (List (List Nat)) Nat :=
  { SampleRate := 48000, Channels := 1, Bitrate := 64000, FrameSize := .num 20, Complexity := 10,
    stream := pending, encbuf := [], decoder := decoded }
/-! ## Closed forms of the two loops -/

theorem lor_shiftLeft_eight (b0 b1 : Nat) (h0 : b0 < 256) :
    b0 ||| (b1 <<< 8) = b0 + 256 * b1 := by
  have h : 2 ^ 8 * b1 + b0 = 2 ^ 8 * b1 ||| b0 := Nat.mul_add_lt_is_or (by simpa using h0) b1
  rw [Nat.lor_comm, Nat.shiftLeft_eq, Nat.mul_comm b1, ← h]
  omega

theorem leUint16_drop (buf : List Nat) (j : Nat) (h : 2 * j + 2 ≤ buf.length) :
    leUint16 (buf.drop (j * 2)) = some (wordAt buf j) := by
  have h0 : 2 * j < buf.length := by omega
  have h1 : 2 * j + 1 < buf.length := by omega
  have e : buf.drop (j * 2) = buf[2 * j] :: buf[2 * j + 1] :: buf.drop (2 * j + 2) := by
    rw [Nat.mul_comm j 2, List.drop_eq_getElem_cons h0, List.drop_eq_getElem_cons h1]
  rw [e]
  simp [leUint16, wordAt, List.getD_eq_getElem?_getD, List.getElem?_eq_getElem h0,
    List.getElem?_eq_getElem h1]

theorem bytesToSamplesLoop_spec (buf : List Nat) :
    ∀ (k i : Nat) (samples : List Int), i + k ≤ samples.length → 2 * (i + k) ≤ buf.length →
      ∃ r, bytesToSamplesLoop buf k i samples = some r ∧ r.length = samples.length ∧
        ∀ j, r[j]? = if i ≤ j ∧ j < i + k then some (toInt16 (wordAt buf j)) else samples[j]? := by
  intro k
  induction k with
  | zero =>
    intro i samples _ _
    refine ⟨samples, rfl, rfl, fun j => ?_⟩
    have : ¬ (i ≤ j ∧ j < i) := by omega
    simp [this]
  | succ k ih =>
    intro i samples hs hb
    have hlt : i < samples.length := by omega
    obtain ⟨r, hr, hlen, hget⟩ := ih (i + 1) (samples.set i (toInt16 (wordAt buf i)))
      (by simp; omega) (by omega)
    refine ⟨r, ?_, by simpa using hlen, fun j => ?_⟩
    · have hsl : sliceFrom buf (i * 2) = some (buf.drop (i * 2)) := by
        simp [sliceFrom]; omega
      simp only [bytesToSamplesLoop, hsl, leUint16_drop buf i (by omega), hlt, if_true]
      exact hr
    · rw [hget j, List.getElem?_set]
      by_cases hij : i = j
      · subst hij
        simp [hlt]
      · by_cases hc : i + 1 ≤ j ∧ j < i + 1 + k
        · have : i ≤ j ∧ j < i + (k + 1) := by omega
          simp [hc, this]
        · have : ¬ (i ≤ j ∧ j < i + (k + 1)) := by omega
          simp [hc, this, hij]

theorem bytesToSamples_eq (buf : List Nat) :
    bytesToSamples buf = some ((List.range (buf.length / 2)).map fun j => toInt16 (wordAt buf j)) := by
  obtain ⟨r, hr, hlen, hget⟩ := bytesToSamplesLoop_spec buf (buf.length / 2) 0
    (List.replicate (buf.length / 2) 0) (by simp) (by omega)
  unfold bytesToSamples
  rw [hr]
  congr 1
  apply List.ext_getElem?
  intro j
  rw [hget j]
  by_cases hj : j < buf.length / 2
  · simp [hj, List.getElem?_range]
  · have c : ¬ (0 ≤ j ∧ j < 0 + buf.length / 2) := by omega
    rw [if_neg c, List.getElem?_eq_none (by simp; omega), List.getElem?_eq_none (by simp; omega)]

theorem samplesToBytesLoop_spec (buf : List Int) :
    ∀ (k i : Nat) (output : List Nat), i + k ≤ buf.length → 2 * (i + k) ≤ output.length →
      ∃ r, samplesToBytesLoop buf k i output = some r ∧ r.length = output.length ∧
        ∀ m, r[m]? = if 2 * i ≤ m ∧ m < 2 * (i + k) then some (byteAt buf m) else output[m]? := by
  intro k
  induction k with
  | zero =>
    intro i output _ _
    refine ⟨output, rfl, rfl, fun m => ?_⟩
    have : ¬ (2 * i ≤ m ∧ m < 2 * i) := by omega
    simp [this]
  | succ k ih =>
    intro i output hs ho
    have hlt : i < buf.length := by omega
    obtain ⟨r, hr, hlen, hget⟩ := ih (i + 1)
      ((output.set (2 * i) (toByte (toUint16 buf[i]))).set (2 * i + 1)
        (toByte (toUint16 buf[i] >>> 8)))
      (by omega) (by simp; omega)
    refine ⟨r, ?_, by simpa using hlen, fun m => ?_⟩
    · have hput : putUint16At output (2 * i) (2 * (i + 1)) (toUint16 buf[i]) =
          some ((output.set (2 * i) (toByte (toUint16 buf[i]))).set (2 * i + 1)
            (toByte (toUint16 buf[i] >>> 8))) := by
        have h1 : 2 * i ≤ 2 * (i + 1) ∧ 2 * (i + 1) ≤ output.length := by omega
        have h2 : ¬ (2 * (i + 1) - 2 * i < 2) := by omega
        simp only [putUint16At, h1, h2, and_self, if_true, if_false]
      simp only [samplesToBytesLoop, List.getElem?_eq_getElem hlt, hput]
      exact hr
    · rw [hget m, List.getElem?_set, List.getElem?_set]
      have hx : buf[i]?.getD 0 = buf[i] := by
        simp [List.getElem?_eq_getElem hlt]
      by_cases h0 : 2 * i = m
      · subst h0
        have a1 : ¬ (2 * (i + 1) ≤ 2 * i ∧ 2 * i < 2 * (i + 1 + k)) := by omega
        have a2 : 2 * i ≤ 2 * i ∧ 2 * i < 2 * (i + (k + 1)) := by omega
        have a3 : ¬ (2 * i + 1 = 2 * i) := by omega
        have a4 : 2 * i < output.length := by omega
        simp [a1, a2, a3, a4, byteAt, hx]
      · by_cases h1 : 2 * i + 1 = m
        · subst h1
          have a1 : ¬ (2 * (i + 1) ≤ 2 * i + 1 ∧ 2 * i + 1 < 2 * (i + 1 + k)) := by omega
          have a2 : 2 * i ≤ 2 * i + 1 ∧ 2 * i + 1 < 2 * (i + (k + 1)) := by omega
          have a4 : 2 * i + 1 < output.length := by omega
          have a5 : (2 * i + 1) / 2 = i := by omega
          have a6 : ¬ ((2 * i + 1) % 2 = 0) := by omega
          simp [a1, a2, a4, byteAt, a5, a6, hx]
        · by_cases hc : 2 * (i + 1) ≤ m ∧ m < 2 * (i + 1 + k)
          · have : 2 * i ≤ m ∧ m < 2 * (i + (k + 1)) := by omega
            simp [hc, this]
          · have : ¬ (2 * i ≤ m ∧ m < 2 * (i + (k + 1))) := by omega
            simp [hc, this, h0, h1]

theorem samplesToBytes_eq (buf : List Int) :
    samplesToBytes buf = some ((List.range (2 * buf.length)).map (byteAt buf)) := by
  obtain ⟨r, hr, hlen, hget⟩ := samplesToBytesLoop_spec buf buf.length 0
    (List.replicate (buf.length * 2) 0) (by simp) (by simp; omega)
  unfold samplesToBytes
  rw [hr]
  congr 1
  apply List.ext_getElem?
  intro m
  rw [hget m]
  by_cases hm : m < 2 * buf.length
  · simp [hm, List.getElem?_range]
  · have c : ¬ (2 * 0 ≤ m ∧ m < 2 * (0 + buf.length)) := by omega
    rw [if_neg c, List.getElem?_eq_none (by simp; omega), List.getElem?_eq_none (by simp; omega)]

/-! ## Width conversions -/

theorem toUint16_toInt16 (u : Nat) : toUint16 (toInt16 u) = u % 65536 := by
  unfold toUint16 toInt16
  split <;> omega

theorem toInt16_toUint16 (x : Int) (h : IsInt16 x) : toInt16 (toUint16 x) = x := by
  unfold IsInt16 at h
  unfold toUint16 toInt16
  split <;> omega

theorem isInt16_toInt16 (u : Nat) : IsInt16 (toInt16 u) := by
  unfold IsInt16 toInt16
  split <;> omega

theorem toUint16_lt (x : Int) : toUint16 x < 65536 := by
  unfold toUint16
  omega

theorem wordAt_eq (buf : List Nat) (hb : ∀ x ∈ buf, IsByte x) (j : Nat)
    (h0 : 2 * j < buf.length) (h1 : 2 * j + 1 < buf.length) :
    wordAt buf j = buf[2 * j] + 256 * buf[2 * j + 1] ∧ buf[2 * j] < 256 ∧ buf[2 * j + 1] < 256 := by
  have b0 : buf[2 * j] < 256 := hb _ (List.getElem_mem h0)
  have b1 : buf[2 * j + 1] < 256 := hb _ (List.getElem_mem h1)
  refine ⟨?_, b0, b1⟩
  simp only [wordAt, List.getD_eq_getElem?_getD, List.getElem?_eq_getElem h0,
    List.getElem?_eq_getElem h1, Option.getD_some]
  exact lor_shiftLeft_eight _ _ b0

theorem byte_lor_byte (v : Nat) (h : v < 65536) : toByte v ||| (toByte (v >>> 8) <<< 8) = v := by
  have hb : toByte v < 256 := by unfold toByte; omega
  rw [lor_shiftLeft_eight _ _ hb, Nat.shiftRight_eq_div_pow]
  unfold toByte
  omega

/-! ## Claims on the sample/byte conversion -/

/-- C1: for every byte buffer `b` of even length, `samplesToBytes(bytesToSamples(b))`
runs without a panic and is equal to `b`. -/
theorem samplesToBytes_bytesToSamples (b : List Nat) (hb : ∀ x ∈ b, IsByte x)
    (he : b.length % 2 = 0) : (bytesToSamples b).bind samplesToBytes = some b := by
  rw [bytesToSamples_eq, Option.some_bind, samplesToBytes_eq]
  congr 1
  apply List.ext_getElem
  · simp; omega
  · intro m h1 h2
    have hm2 : m / 2 < b.length / 2 := by omega
    have hj0 : 2 * (m / 2) < b.length := by omega
    have hj1 : 2 * (m / 2) + 1 < b.length := by omega
    obtain ⟨hw, hlo, hhi⟩ := wordAt_eq b hb (m / 2) hj0 hj1
    simp only [List.getElem_map, List.getElem_range, byteAt, List.getD_eq_getElem?_getD,
      List.getElem?_map, List.getElem?_range hm2, Option.map_some', Option.getD_some,
      toUint16_toInt16, hw, toByte, Nat.shiftRight_eq_div_pow]
    by_cases hpar : m % 2 = 0
    · have e : 2 * (m / 2) = m := by omega
      simp only [hpar, if_true]
      have : b[2 * (m / 2)] = b[m] := by simp only [e]
      omega
    · have e : 2 * (m / 2) + 1 = m := by omega
      simp only [hpar, if_false]
      have : b[2 * (m / 2) + 1] = b[m] := by simp only [e]
      omega

/-- Witness for C1 on a four-byte buffer. -/
theorem samplesToBytes_bytesToSamples_witness :
    (∀ x ∈ [1, 2, 255, 128], IsByte x) ∧ [1, 2, 255, 128].length % 2 = 0 ∧
      (bytesToSamples [1, 2, 255, 128]).bind samplesToBytes = some [1, 2, 255, 128] :=
  ⟨by decide, by decide, samplesToBytes_bytesToSamples [1, 2, 255, 128] (by decide) (by decide)⟩

/-- C2: for every sequence `s` of 16-bit signed samples,
`bytesToSamples(samplesToBytes(s))` runs without a panic and is equal to `s`. -/
theorem bytesToSamples_samplesToBytes (s : List Int) (hs : ∀ x ∈ s, IsInt16 x) :
    (samplesToBytes s).bind bytesToSamples = some s := by
  rw [samplesToBytes_eq, Option.some_bind, bytesToSamples_eq]
  congr 1
  apply List.ext_getElem
  · simp
  · intro j h1 h2
    have hj : j < s.length := h2
    have hj0 : 2 * j < 2 * s.length := by omega
    have hj1 : 2 * j + 1 < 2 * s.length := by omega
    have e0 : 2 * j % 2 = 0 := by omega
    have e1 : ¬ ((2 * j + 1) % 2 = 0) := by omega
    have d0 : 2 * j / 2 = j := by omega
    have d1 : (2 * j + 1) / 2 = j := by omega
    simp only [List.getElem_map, List.getElem_range, wordAt, List.getD_eq_getElem?_getD,
      List.getElem?_map, List.getElem?_range hj0, List.getElem?_range hj1, Option.map_some',
      Option.getD_some, byteAt, e0, e1, d0, d1, if_true, if_false,
      List.getElem?_eq_getElem hj]
    rw [byte_lor_byte _ (toUint16_lt _)]
    exact toInt16_toUint16 _ (hs _ (List.getElem_mem hj))

/-- Witness for C2 on a sequence holding both extreme values. -/
theorem bytesToSamples_samplesToBytes_witness :
    (∀ x ∈ [-32768, 32767, 0, -1], IsInt16 x) ∧
      (samplesToBytes [-32768, 32767, 0, -1]).bind bytesToSamples = some [-32768, 32767, 0, -1] :=
  ⟨by decide, bytesToSamples_samplesToBytes [-32768, 32767, 0, -1] (by decide)⟩

theorem wordAt_append (b : List Nat) (x : Nat) (j : Nat) (h : 2 * j + 1 < b.length) :
    wordAt (b ++ [x]) j = wordAt b j := by
  have h0 : 2 * j < b.length := by omega
  simp only [wordAt, List.getD_eq_getElem?_getD, List.getElem?_append_left h0,
    List.getElem?_append_left h]

/-- C9: for every byte buffer `b`, `bytesToSamples(b)` runs without a panic, its
result has length `len(b)/2` (floor division), and sample `i` is the `int16`
whose two's-complement representation has low byte `b[2i]` and high byte
`b[2i+1]`; when `len(b)` is even, appending one more byte `x` changes nothing. -/
theorem bytesToSamples_spec (b : List Nat) (hb : ∀ x ∈ b, IsByte x) :
    ∃ r, bytesToSamples b = some r ∧ r.length = b.length / 2 ∧
      (∀ i, i < b.length / 2 → ∃ v, r[i]? = some v ∧ IsInt16 v ∧
        b[2 * i]? = some (toUint16 v % 256) ∧ b[2 * i + 1]? = some (toUint16 v / 256)) ∧
      (b.length % 2 = 0 → ∀ x, bytesToSamples (b ++ [x]) = some r) := by
  refine ⟨_, bytesToSamples_eq b, by simp, ?_, ?_⟩
  · intro i hi
    have h0 : 2 * i < b.length := by omega
    have h1 : 2 * i + 1 < b.length := by omega
    obtain ⟨hw, hlo, hhi⟩ := wordAt_eq b hb i h0 h1
    refine ⟨toInt16 (wordAt b i), by simp [List.getElem?_range hi], isInt16_toInt16 _, ?_, ?_⟩
    · rw [toUint16_toInt16, hw, List.getElem?_eq_getElem h0]
      congr 1
      omega
    · rw [toUint16_toInt16, hw, List.getElem?_eq_getElem h1]
      congr 1
      omega
  · intro he x
    rw [bytesToSamples_eq]
    have hl : (b ++ [x]).length / 2 = b.length / 2 := by
      simp only [List.length_append, List.length_singleton]
      omega
    rw [hl]
    congr 1
    apply List.map_congr_left
    intro j hj
    have : j < b.length / 2 := List.mem_range.mp hj
    rw [wordAt_append b x j (by omega)]

/-- Witness for C9 on a buffer of odd length. -/
theorem bytesToSamples_spec_witness :
    (∀ x ∈ [1, 2, 255, 255, 7], IsByte x) ∧
      ∃ r, bytesToSamples [1, 2, 255, 255, 7] = some r ∧ r.length = [1, 2, 255, 255, 7].length / 2 ∧
        (∀ i, i < [1, 2, 255, 255, 7].length / 2 → ∃ v, r[i]? = some v ∧ IsInt16 v ∧
          [1, 2, 255, 255, 7][2 * i]? = some (toUint16 v % 256) ∧
          [1, 2, 255, 255, 7][2 * i + 1]? = some (toUint16 v / 256)) ∧
        ([1, 2, 255, 255, 7].length % 2 = 0 →
          ∀ x, bytesToSamples ([1, 2, 255, 255, 7] ++ [x]) = some r) :=
  ⟨by decide, bytesToSamples_spec [1, 2, 255, 255, 7] (by decide)⟩

/-- C10: for every sample sequence `s`, `samplesToBytes(s)` runs without a panic,
its result has length `2 * len(s)`, and for every `i < len(s)` byte `2i` is the
low 8 bits and byte `2i+1` the high 8 bits of the 16-bit two's-complement
representation of `s[i]`. -/
theorem samplesToBytes_spec (s : List Int) :
    ∃ out, samplesToBytes s = some out ∧ out.length = 2 * s.length ∧
      ∀ i v, s[i]? = some v →
        out[2 * i]? = some (toUint16 v % 256) ∧ out[2 * i + 1]? = some (toUint16 v / 256) := by
  refine ⟨_, samplesToBytes_eq s, by simp, ?_⟩
  intro i v hv
  have hi : i < s.length := by
    by_contra hc
    rw [List.getElem?_eq_none (by omega)] at hv
    exact Option.noConfusion hv
  have hj0 : 2 * i < 2 * s.length := by omega
  have hj1 : 2 * i + 1 < 2 * s.length := by omega
  have e0 : 2 * i % 2 = 0 := by omega
  have e1 : ¬ ((2 * i + 1) % 2 = 0) := by omega
  have d0 : 2 * i / 2 = i := by omega
  have d1 : (2 * i + 1) / 2 = i := by omega
  have hlt := toUint16_lt v
  simp only [List.getElem?_map, List.getElem?_range hj0, List.getElem?_range hj1,
    Option.map_some', byteAt, e0, e1, d0, d1, if_true, if_false, List.getD_eq_getElem?_getD, hv,
    Option.getD_some, toByte, Nat.shiftRight_eq_div_pow]
  refine ⟨trivial, ?_⟩
  congr 1
  omega

/-! ## `float32` rounding -/

theorem roundHalfEven_intCast (m : ℤ) : roundHalfEven (m : ℚ) = m := by
  simp [roundHalfEven]

theorem roundHalfEven_eq (t : ℚ) (f : ℤ) (h1 : (f : ℚ) ≤ t) (h2 : t < f + 1) :
    roundHalfEven t =
      if t - f < 1 / 2 then f else if 1 / 2 < t - f then f + 1
      else if f % 2 = 0 then f else f + 1 := by
  have hf : ⌊t⌋ = f := Int.floor_eq_iff.mpr ⟨h1, h2⟩
  simp only [roundHalfEven, hf]

theorem roundHalfEven_mono {t u : ℚ} (h : t ≤ u) : roundHalfEven t ≤ roundHalfEven u := by
  have hfl : ⌊t⌋ ≤ ⌊u⌋ := Int.floor_mono h
  have ht1 := Int.floor_le t
  have ht2 := Int.lt_floor_add_one t
  have hu1 := Int.floor_le u
  have hu2 := Int.lt_floor_add_one u
  rcases lt_or_eq_of_le hfl with hlt | heq
  · have hA : roundHalfEven t ≤ ⌊t⌋ + 1 := by
      unfold roundHalfEven
      split_ifs <;> omega
    have hB : ⌊u⌋ ≤ roundHalfEven u := by
      unfold roundHalfEven
      split_ifs <;> omega
    omega
  · unfold roundHalfEven
    rw [heq] at ht1 ht2 ⊢
    split_ifs <;> first | omega | (exfalso; linarith)

theorem roundHalfEven_le {t : ℚ} {n : ℤ} (h : t ≤ n) : roundHalfEven t ≤ n := by
  have := roundHalfEven_mono h
  rwa [roundHalfEven_intCast] at this

theorem le_roundHalfEven {t : ℚ} {n : ℤ} (h : (n : ℚ) ≤ t) : n ≤ roundHalfEven t := by
  have := roundHalfEven_mono h
  rwa [roundHalfEven_intCast] at this

theorem two_zpow_pos (e : ℤ) : (0 : ℚ) < 2 ^ e := zpow_pos (by norm_num) e

theorem ulpExp_of_binade {x : ℚ} {k : ℤ} (h1 : (2 : ℚ) ^ k ≤ x) (h2 : x < 2 ^ (k + 1))
    (hk : -126 ≤ k) : ulpExp x = k - 23 := by
  have hx : 0 < x := lt_of_lt_of_le (two_zpow_pos k) h1
  have ha : k ≤ Int.log 2 x := (Int.zpow_le_iff_le_log (by norm_num) hx).mp (by exact_mod_cast h1)
  have hb : Int.log 2 x < k + 1 := (Int.lt_zpow_iff_log_lt (by norm_num) hx).mp (by exact_mod_cast h2)
  unfold ulpExp
  have : Int.log 2 x = k := by omega
  rw [this]
  omega

theorem roundMag_of_binade {x : ℚ} {k : ℤ} (h1 : (2 : ℚ) ^ k ≤ x) (h2 : x < 2 ^ (k + 1))
    (hk : -126 ≤ k) : roundMag x = (roundHalfEven (x / 2 ^ (k - 23)) : ℚ) * 2 ^ (k - 23) := by
  unfold roundMag
  rw [ulpExp_of_binade h1 h2 hk]

theorem roundMag_nonneg {x : ℚ} (h : 0 ≤ x) : 0 ≤ roundMag x := by
  unfold roundMag
  have h0 : (0 : ℚ) ≤ x / 2 ^ ulpExp x := div_nonneg h (le_of_lt (two_zpow_pos _))
  have h1 : (0 : ℤ) ≤ roundHalfEven (x / 2 ^ ulpExp x) := le_roundHalfEven (by exact_mod_cast h0)
  exact mul_nonneg (by exact_mod_cast h1) (le_of_lt (two_zpow_pos _))

theorem ulpExp_mono {x y : ℚ} (hx : 0 < x) (h : x ≤ y) : ulpExp x ≤ ulpExp y := by
  unfold ulpExp
  have := Int.log_mono_right (b := 2) hx h
  omega

theorem div_ulp_lt (x : ℚ) : x / 2 ^ ulpExp x < ((2 ^ 24 : ℤ) : ℚ) := by
  have h1 : x < (2 : ℚ) ^ (Int.log 2 x + 1) := by
    exact_mod_cast Int.lt_zpow_succ_log_self (b := 2) (by norm_num) x
  have h2 : (2 : ℚ) ^ (Int.log 2 x + 1) ≤ 2 ^ (ulpExp x + 24) := by
    apply zpow_le_zpow_right₀ (by norm_num)
    unfold ulpExp
    omega
  have h3 : (2 : ℚ) ^ (ulpExp x + 24) = 2 ^ 24 * 2 ^ ulpExp x := by
    rw [zpow_add₀ (by norm_num), mul_comm]
    norm_num
  rw [div_lt_iff₀ (two_zpow_pos _)]
  push_cast
  linarith

theorem roundMag_le_ulp (x : ℚ) : roundMag x ≤ 2 ^ (ulpExp x + 24) := by
  have h := roundHalfEven_le (le_of_lt (div_ulp_lt x))
  have h3 : (2 : ℚ) ^ (ulpExp x + 24) = 2 ^ 24 * 2 ^ ulpExp x := by
    rw [zpow_add₀ (by norm_num), mul_comm]
    norm_num
  unfold roundMag
  rw [h3]
  apply mul_le_mul_of_nonneg_right _ (le_of_lt (two_zpow_pos _))
  exact_mod_cast h

theorem le_roundMag_of_normal {y : ℚ} (hy : 0 < y) (hn : -149 < ulpExp y) :
    (2 : ℚ) ^ (ulpExp y + 23) ≤ roundMag y := by
  have he : ulpExp y = Int.log 2 y - 23 := by
    unfold ulpExp at hn ⊢
    omega
  have h1 : (2 : ℚ) ^ (ulpExp y + 23) ≤ y := by
    have := Int.zpow_log_le_self (b := 2) (r := y) (by norm_num) hy
    rw [he]
    simpa using this
  have h3 : (2 : ℚ) ^ (ulpExp y + 23) = 2 ^ 23 * 2 ^ ulpExp y := by
    rw [zpow_add₀ (by norm_num), mul_comm]
    norm_num
  have h4 : (((2 ^ 23 : ℤ)) : ℚ) ≤ y / 2 ^ ulpExp y := by
    rw [le_div_iff₀ (two_zpow_pos _)]
    push_cast
    linarith
  have h5 := le_roundHalfEven h4
  unfold roundMag
  rw [h3]
  apply mul_le_mul_of_nonneg_right _ (le_of_lt (two_zpow_pos _))
  exact_mod_cast h5

/-- Rounding to `float32` precision is monotone. -/
theorem roundMag_mono {x y : ℚ} (hx : 0 ≤ x) (h : x ≤ y) : roundMag x ≤ roundMag y := by
  rcases eq_or_lt_of_le hx with h0 | hpos
  · have hz : roundMag x = 0 := by
      rw [← h0]
      simp [roundMag, roundHalfEven]
    rw [hz]
    exact roundMag_nonneg (le_trans hx h)
  · have hy : 0 < y := lt_of_lt_of_le hpos h
    rcases lt_or_eq_of_le (ulpExp_mono hpos h) with hlt | heq
    · have ha := roundMag_le_ulp x
      have hb := le_roundMag_of_normal hy (by unfold ulpExp at hlt ⊢; omega)
      have hc : (2 : ℚ) ^ (ulpExp x + 24) ≤ 2 ^ (ulpExp y + 23) :=
        zpow_le_zpow_right₀ (by norm_num) (by omega)
      linarith
    · unfold roundMag
      rw [heq]
      apply mul_le_mul_of_nonneg_right _ (le_of_lt (two_zpow_pos _))
      have : x / 2 ^ ulpExp y ≤ y / 2 ^ ulpExp y :=
        div_le_div_of_nonneg_right h (le_of_lt (two_zpow_pos _))
      exact_mod_cast roundHalfEven_mono this

/-- A power of two in the normal range is a `float32`. -/
theorem roundMag_two_zpow (k : ℤ) (hk : -126 ≤ k) : roundMag ((2 : ℚ) ^ k) = 2 ^ k := by
  have h2 : (2 : ℚ) ^ k < 2 ^ (k + 1) := zpow_lt_zpow_right₀ (by norm_num) (by omega)
  rw [roundMag_of_binade (le_refl _) h2 hk]
  have e : ((2 ^ 23 : ℤ) : ℚ) = 2 ^ (23 : ℤ) := by norm_num
  have hm : (2 : ℚ) ^ (23 : ℤ) * 2 ^ (k - 23) = 2 ^ k := by
    rw [← zpow_add₀ (by norm_num)]
    congr 1
    omega
  have hd : (2 : ℚ) ^ k / 2 ^ (k - 23) = ((2 ^ 23 : ℤ) : ℚ) := by
    rw [div_eq_iff (ne_of_gt (two_zpow_pos _)), e, hm]
  rw [hd, roundHalfEven_intCast, e, hm]

theorem roundMag_le_two_zpow {x : ℚ} (k : ℤ) (hk : -126 ≤ k) (hx : 0 ≤ x) (h : x ≤ 2 ^ k) :
    roundMag x ≤ 2 ^ k := by
  have := roundMag_mono hx h
  rwa [roundMag_two_zpow k hk] at this

/-- A multiple `n * 2^j` of a power of two with `n < 2^24` is a `float32`. -/
theorem roundMag_dyadic (n : ℕ) (j : ℤ) (hn : n < 2 ^ 24) (hj : -149 ≤ j) :
    roundMag ((n : ℚ) * 2 ^ j) = (n : ℚ) * 2 ^ j := by
  rcases Nat.eq_zero_or_pos n with h0 | hpos
  · subst h0
    simp [roundMag, roundHalfEven]
  · have hx : (0 : ℚ) < (n : ℚ) * 2 ^ j := mul_pos (by exact_mod_cast hpos) (two_zpow_pos j)
    -- the ulp exponent is at most `j`
    have hlt : (n : ℚ) * 2 ^ j < 2 ^ (j + 24) := by
      rw [zpow_add₀ (by norm_num), mul_comm ((2 : ℚ) ^ j)]
      apply mul_lt_mul_of_pos_right _ (two_zpow_pos j)
      have e2 : (2 : ℚ) ^ (24 : ℤ) = 16777216 := by norm_num
      rw [e2]
      exact_mod_cast hn
    have hlog : Int.log 2 ((n : ℚ) * 2 ^ j) < j + 24 :=
      (Int.lt_zpow_iff_log_lt (by norm_num) hx).mp (by exact_mod_cast hlt)
    have hge : (2 : ℚ) ^ j ≤ (n : ℚ) * 2 ^ j := by
      have h1 : (1 : ℚ) ≤ n := by exact_mod_cast hpos
      nlinarith [two_zpow_pos j]
    have hlog2 : j ≤ Int.log 2 ((n : ℚ) * 2 ^ j) :=
      (Int.zpow_le_iff_le_log (by norm_num) hx).mp (by exact_mod_cast hge)
    have he : ulpExp ((n : ℚ) * 2 ^ j) ≤ j := by
      unfold ulpExp
      omega
    obtain ⟨c, hc⟩ : ∃ c : ℕ, j = ulpExp ((n : ℚ) * 2 ^ j) + c :=
      ⟨(j - ulpExp ((n : ℚ) * 2 ^ j)).toNat, by omega⟩
    have hd : (n : ℚ) * 2 ^ j / 2 ^ ulpExp ((n : ℚ) * 2 ^ j) = (((n * 2 ^ c : ℕ) : ℤ) : ℚ) := by
      rw [div_eq_iff (ne_of_gt (two_zpow_pos _))]
      push_cast
      rw [mul_assoc, ← zpow_natCast, ← zpow_add₀ (by norm_num)]
      congr 2
      omega
    unfold roundMag
    rw [hd, roundHalfEven_intCast]
    push_cast
    rw [mul_assoc, ← zpow_natCast, ← zpow_add₀ (by norm_num)]
    congr 2
    omega

/-! ## Frame-size negotiation: conversions -/

theorem toInt_le (u : Nat) : toInt u ≤ (u : Int) := by
  unfold toInt
  split <;> omega

theorem toInt_of_lt (u : Nat) (h : u < 2 ^ 63) : toInt u = (u : Int) := by
  unfold toInt
  split <;> omega

theorem samplesPerMs_le {Stream Decoder : Type} (s : OggStream Stream Decoder) :
    samplesPerMs s ≤ 18446744073709551 := by
  unfold samplesPerMs
  omega

theorem roundF32_of_nonneg {x : ℚ} (h0 : 0 ≤ x) (h1 : roundMag x < 2 ^ 128) :
    roundF32 x = .num (roundMag x) := by
  simp only [roundF32, h0, h1, if_true]

/-- A non-negative `n * 2^j` with `n < 2^24` is a `float32`: rounding returns it. -/
theorem roundF32_dyadic (n : ℕ) (j : ℤ) (hn : n < 2 ^ 24) (hj : -149 ≤ j) (hj1 : j ≤ 100) :
    roundF32 ((n : ℚ) * 2 ^ j) = .num ((n : ℚ) * 2 ^ j) := by
  have hx : (0 : ℚ) ≤ (n : ℚ) * 2 ^ j := mul_nonneg (Nat.cast_nonneg n) (le_of_lt (two_zpow_pos j))
  have hr := roundMag_dyadic n j hn hj
  have hlt : (n : ℚ) * 2 ^ j < 2 ^ 128 := by
    have h1 : (n : ℚ) ≤ 2 ^ (24 : ℤ) := by
      have e2 : (2 : ℚ) ^ (24 : ℤ) = 16777216 := by norm_num
      rw [e2]
      exact_mod_cast le_of_lt hn
    have h2 : (2 : ℚ) ^ j ≤ 2 ^ (100 : ℤ) := zpow_le_zpow_right₀ (by norm_num) hj1
    have h3 : (n : ℚ) * 2 ^ j ≤ 2 ^ (24 : ℤ) * 2 ^ (100 : ℤ) :=
      mul_le_mul h1 h2 (le_of_lt (two_zpow_pos j)) (le_of_lt (two_zpow_pos 24))
    have h4 : (2 : ℚ) ^ (24 : ℤ) * 2 ^ (100 : ℤ) < 2 ^ 128 := by norm_num
    linarith
  rw [roundF32_of_nonneg hx (by rw [hr]; exact hlt), hr]

/-- A natural number below `2^24` is a `float32`. -/
theorem roundF32_natCast (n : ℕ) (hn : n < 2 ^ 24) : roundF32 (n : ℚ) = .num (n : ℚ) := by
  have := roundF32_dyadic n 0 hn (by norm_num) (by norm_num)
  simpa using this

theorem floatToUint_num (impl : F32 → Nat) (q : ℚ) (h0 : 0 ≤ q) (h1 : q < 2 ^ 64) :
    floatToUint impl (.num q) = ⌊q⌋₊ := by
  have h : -1 < q ∧ q < 2 ^ 64 := ⟨by linarith, h1⟩
  simp only [floatToUint, h, and_self, if_true]

/-- The value of `float32(s.Channels*s.SampleRate/1000)`: a number from 0 to `2^55`. -/
theorem uintToF32_samplesPerMs {Stream Decoder : Type} (s : OggStream Stream Decoder) :
    uintToF32 (samplesPerMs s) = .num (roundMag (samplesPerMs s)) ∧
      0 ≤ roundMag (samplesPerMs s) ∧ roundMag (samplesPerMs s) ≤ 2 ^ (55 : ℤ) := by
  have h0 : (0 : ℚ) ≤ (samplesPerMs s : ℚ) := Nat.cast_nonneg _
  have hle : ((samplesPerMs s : ℕ) : ℚ) ≤ 2 ^ (55 : ℤ) := by
    have h := samplesPerMs_le s
    have e : (2 : ℚ) ^ (55 : ℤ) = 36028797018963968 := by norm_num
    rw [e]
    have : ((samplesPerMs s : ℕ) : ℚ) ≤ 18446744073709551 := by exact_mod_cast h
    linarith
  have hb := roundMag_le_two_zpow 55 (by norm_num) h0 hle
  refine ⟨?_, roundMag_nonneg h0, hb⟩
  unfold uintToF32
  apply roundF32_of_nonneg h0
  have : (2 : ℚ) ^ (55 : ℤ) < 2 ^ 128 := by norm_num
  linarith

/-- For a duration from 0 to 60 ms the conversion stays in range: `nSamples` is
the floor of the rounded product, below `2^63`. -/
theorem nSamples_num {Stream Decoder : Type} (impl : F32 → Nat) (s : OggStream Stream Decoder)
    (q : ℚ) (h0 : 0 ≤ q) (h1 : q ≤ 60) :
    nSamples impl s (.num q) = ⌊roundMag (q * roundMag (samplesPerMs s))⌋₊ ∧
      nSamples impl s (.num q) < 2 ^ 63 := by
  obtain ⟨hp, hp0, hp1⟩ := uintToF32_samplesPerMs s
  have hx0 : 0 ≤ q * roundMag (samplesPerMs s) := mul_nonneg h0 hp0
  have hx1 : q * roundMag (samplesPerMs s) ≤ 2 ^ (61 : ℤ) := by
    have e : (2 : ℚ) ^ (61 : ℤ) = 64 * 2 ^ (55 : ℤ) := by norm_num
    rw [e]
    exact mul_le_mul (by linarith) hp1 hp0 (by norm_num)
  have hb := roundMag_le_two_zpow 61 (by norm_num) hx0 hx1
  have hr0 := roundMag_nonneg hx0
  have e61 : (2 : ℚ) ^ (61 : ℤ) = 2305843009213693952 := by norm_num
  have hround : roundF32 (q * roundMag (samplesPerMs s)) =
      .num (roundMag (q * roundMag (samplesPerMs s))) :=
    roundF32_of_nonneg hx0 (by rw [e61] at hb; exact lt_of_le_of_lt hb (by norm_num))
  have hn : nSamples impl s (.num q) = ⌊roundMag (q * roundMag (samplesPerMs s))⌋₊ := by
    unfold nSamples
    rw [hp]
    show floatToUint impl (roundF32 (q * roundMag (samplesPerMs s))) = _
    rw [hround, floatToUint_num impl _ hr0 (by rw [e61] at hb; exact lt_of_le_of_lt hb (by norm_num))]
  refine ⟨hn, ?_⟩
  rw [hn]
  have hfl := Nat.floor_le hr0
  have : ((⌊roundMag (q * roundMag (samplesPerMs s))⌋₊ : ℕ) : ℚ) < ((2 ^ 63 : ℕ) : ℚ) := by
    rw [e61] at hb
    push_cast
    exact lt_of_le_of_lt (le_trans hfl hb) (by norm_num)
  exact_mod_cast this

theorem nSamples_mono {Stream Decoder : Type} (impl : F32 → Nat) (s : OggStream Stream Decoder)
    (a b : ℚ) (h0 : 0 ≤ a) (hab : a ≤ b) (h1 : b ≤ 60) :
    nSamples impl s (.num a) ≤ nSamples impl s (.num b) := by
  rw [(nSamples_num impl s a h0 (le_trans hab h1)).1, (nSamples_num impl s b (le_trans h0 hab) h1).1]
  obtain ⟨_, hp0, _⟩ := uintToF32_samplesPerMs s
  exact Nat.floor_mono (roundMag_mono (mul_nonneg h0 hp0) (mul_le_mul_of_nonneg_right hab hp0))

/-- Evaluation of `nSamples` when the per-millisecond count `p` is below `2^24`
and the product rounds to the number `v`. -/
theorem nSamples_eval {Stream Decoder : Type} (impl : F32 → Nat) (s : OggStream Stream Decoder)
    (q v : ℚ) (p : ℕ) (hp : samplesPerMs s = p) (hp24 : p < 2 ^ 24)
    (hr : roundF32 (q * (p : ℚ)) = .num v) (h0 : 0 ≤ v) (h1 : v < 2 ^ 64) :
    nSamples impl s (.num q) = ⌊v⌋₊ := by
  unfold nSamples uintToF32
  rw [hp, roundF32_natCast p hp24]
  show floatToUint impl (roundF32 (q * (p : ℚ))) = ⌊v⌋₊
  rw [hr, floatToUint_num impl _ h0 h1]

/-- Evaluation of `nSamples` when the exact product is a natural number below
`2^24`: no rounding takes place. -/
theorem nSamples_exact {Stream Decoder : Type} (impl : F32 → Nat) (s : OggStream Stream Decoder)
    (q : ℚ) (p n : ℕ) (hp : samplesPerMs s = p) (hp24 : p < 2 ^ 24)
    (hq : q * (p : ℚ) = (n : ℚ)) (hn : n < 2 ^ 24) :
    nSamples impl s (.num q) = n := by
  have hlt : ((n : ℕ) : ℚ) < 2 ^ 64 := by
    have : ((n : ℕ) : ℚ) < ((2 ^ 24 : ℕ) : ℚ) := by exact_mod_cast hn
    exact lt_trans this (by norm_num)
  rw [nSamples_eval impl s q n p hp hp24 (by rw [hq]; exact roundF32_natCast n hn)
    (Nat.cast_nonneg n) hlt, Nat.floor_natCast]

theorem mem_FrameSizes_range (d : ℚ) (h : d ∈ FrameSizes) : 0 ≤ d ∧ d ≤ 60 ∧ 5 / 2 ≤ d := by
  simp only [FrameSizes, List.mem_cons, List.mem_singleton, List.not_mem_nil, or_false] at h
  rcases h with h | h | h | h | h | h <;> subst h <;> norm_num

theorem FrameSizes_sorted : FrameSizes.Pairwise (fun a b => b ≤ a) := by
  simp only [FrameSizes, List.pairwise_cons, List.mem_cons, List.mem_singleton,
    List.not_mem_nil, forall_eq_or_imp, forall_eq, List.Pairwise.nil]
  norm_num

theorem FrameSizes_range : ∀ d ∈ FrameSizes, 0 ≤ d ∧ d ≤ 60 :=
  fun d hd => ⟨(mem_FrameSizes_range d hd).1, (mem_FrameSizes_range d hd).2.1⟩

/-! ## Frame-size negotiation: the scan -/

theorem geF32_num_num (a b : ℚ) : geF32 (.num a) (.num b) = true ↔ b ≤ a := by
  simp [geF32]

theorem scanFrameSizes_none {Stream Decoder : Type} (impl : F32 → Nat)
    (s : OggStream Stream Decoder) (samples : Nat) :
    ∀ l : List ℚ, scanFrameSizes impl s samples l = none ↔
      ∀ d ∈ l, geF32 (.num d) s.FrameSize = false → samples < nSamples impl s (.num d) := by
  intro l
  induction l with
  | nil => simp [scanFrameSizes]
  | cons val rest ih =>
    unfold scanFrameSizes
    by_cases hskip : geF32 (.num val) s.FrameSize = true
    · simp only [hskip, if_true, ih, List.mem_cons, forall_eq_or_imp]
      constructor
      · intro h
        exact ⟨fun hc => Bool.noConfusion hc, h⟩
      · intro h
        exact h.2
    · have hskip' : geF32 (.num val) s.FrameSize = false := by simpa using hskip
      by_cases hfit : nSamples impl s (.num val) ≤ samples
      · simp only [hskip', hfit, if_true, Bool.false_eq_true, if_false, List.mem_cons,
          forall_eq_or_imp]
        constructor
        · intro h
          exact Option.noConfusion h
        · intro h
          exact absurd (h.1 trivial) (not_lt.mpr hfit)
      · simp only [hskip', hfit, Bool.false_eq_true, if_false, ih, List.mem_cons,
          forall_eq_or_imp]
        constructor
        · intro h
          exact ⟨fun _ => not_le.mp hfit, h⟩
        · intro h
          exact h.2

/-- A result of the scan is the count of a duration that is not skipped and fits;
every duration before it in the list is skipped or does not fit. -/
theorem scanFrameSizes_some {Stream Decoder : Type} (impl : F32 → Nat)
    (s : OggStream Stream Decoder) (samples : Nat) :
    ∀ (l : List ℚ) (r : Int), scanFrameSizes impl s samples l = some r →
      ∃ d ∈ l, geF32 (.num d) s.FrameSize = false ∧ nSamples impl s (.num d) ≤ samples ∧
        r = toInt (nSamples impl s (.num d)) := by
  intro l
  induction l with
  | nil =>
    intro r h
    exact Option.noConfusion h
  | cons val rest ih =>
    intro r h
    unfold scanFrameSizes at h
    by_cases hskip : geF32 (.num val) s.FrameSize = true
    · simp only [hskip, if_true] at h
      obtain ⟨d, hd, h1, h2, h3⟩ := ih r h
      exact ⟨d, List.mem_cons_of_mem _ hd, h1, h2, h3⟩
    · have hskip' : geF32 (.num val) s.FrameSize = false := by simpa using hskip
      by_cases hfit : nSamples impl s (.num val) ≤ samples
      · simp only [hskip', hfit, if_true, Bool.false_eq_true, if_false, Option.some.injEq] at h
        exact ⟨val, List.mem_cons_self _ _, hskip', hfit, h.symm⟩
      · simp only [hskip', hfit, Bool.false_eq_true, if_false] at h
        obtain ⟨d, hd, h1, h2, h3⟩ := ih r h
        exact ⟨d, List.mem_cons_of_mem _ hd, h1, h2, h3⟩

/-- On a descending list of durations from 0 to 60 ms, the result of the scan is
the largest count among the durations that are not skipped and fit. -/
theorem scanFrameSizes_largest {Stream Decoder : Type} (impl : F32 → Nat)
    (s : OggStream Stream Decoder) (samples : Nat) :
    ∀ (l : List ℚ) (r : Int), (∀ d ∈ l, 0 ≤ d ∧ d ≤ 60) → l.Pairwise (fun a b => b ≤ a) →
      scanFrameSizes impl s samples l = some r →
      ∃ d ∈ l, geF32 (.num d) s.FrameSize = false ∧ nSamples impl s (.num d) ≤ samples ∧
        r = ((nSamples impl s (.num d) : Nat) : Int) ∧
        ∀ e ∈ l, geF32 (.num e) s.FrameSize = false → nSamples impl s (.num e) ≤ samples →
          nSamples impl s (.num e) ≤ nSamples impl s (.num d) := by
  intro l
  induction l with
  | nil =>
    intro r _ _ h
    exact Option.noConfusion h
  | cons val rest ih =>
    intro r hrange hsorted h
    have hrest : ∀ d ∈ rest, 0 ≤ d ∧ d ≤ 60 := fun d hd => hrange d (List.mem_cons_of_mem _ hd)
    have hval := hrange val (List.mem_cons_self _ _)
    rw [List.pairwise_cons] at hsorted
    unfold scanFrameSizes at h
    by_cases hskip : geF32 (.num val) s.FrameSize = true
    · simp only [hskip, if_true] at h
      obtain ⟨d, hd, hlt, hfit, hr, hmax⟩ := ih r hrest hsorted.2 h
      refine ⟨d, List.mem_cons_of_mem _ hd, hlt, hfit, hr, ?_⟩
      intro e he hne hefit
      rcases List.mem_cons.mp he with rfl | he
      · rw [hskip] at hne
        exact Bool.noConfusion hne
      · exact hmax e he hne hefit
    · have hskip' : geF32 (.num val) s.FrameSize = false := by simpa using hskip
      by_cases hfit : nSamples impl s (.num val) ≤ samples
      · simp only [hskip', hfit, if_true, Bool.false_eq_true, if_false, Option.some.injEq] at h
        refine ⟨val, List.mem_cons_self _ _, hskip', hfit, ?_, ?_⟩
        · rw [← h, toInt_of_lt _ (nSamples_num impl s val hval.1 hval.2).2]
        · intro e he _ _
          rcases List.mem_cons.mp he with rfl | he
          · exact le_refl _
          · exact nSamples_mono impl s e val (hrest e he).1 (hsorted.1 e he) hval.2
      · simp only [hskip', hfit, Bool.false_eq_true, if_false] at h
        obtain ⟨d, hd, hlt, hdfit, hr, hmax⟩ := ih r hrest hsorted.2 h
        refine ⟨d, List.mem_cons_of_mem _ hd, hlt, hdfit, hr, ?_⟩
        intro e he hne hefit
        rcases List.mem_cons.mp he with rfl | he
        · exact absurd hefit hfit
        · exact hmax e he hne hefit

theorem getFrameSamples_ok_cases {Stream Decoder : Type} (impl : F32 → Nat)
    (s : OggStream Stream Decoder) (samples : Nat) (r : Int)
    (h : getFrameSamples impl s samples = .ok r) :
    (nSamples impl s s.FrameSize ≤ samples ∧ r = toInt (nSamples impl s s.FrameSize)) ∨
    (samples < nSamples impl s s.FrameSize ∧
      scanFrameSizes impl s samples FrameSizes = some r) := by
  unfold getFrameSamples at h
  by_cases hfit : nSamples impl s s.FrameSize ≤ samples
  · simp only [hfit, if_true, Except.ok.injEq] at h
    exact Or.inl ⟨hfit, h.symm⟩
  · simp only [hfit, if_false] at h
    refine Or.inr ⟨not_le.mp hfit, ?_⟩
    cases hscan : scanFrameSizes impl s samples FrameSizes with
    | none =>
      rw [hscan] at h
      exact Except.noConfusion h
    | some r1 =>
      rw [hscan] at h
      simp only [Except.ok.injEq] at h
      rw [h]

/-- A duration from 0 to 60 ms that the scan skips has a count at least the
target's, provided some duration of the list is not skipped. -/
theorem nSamples_le_of_skipped {Stream Decoder : Type} (impl : F32 → Nat)
    (s : OggStream Stream Decoder) (d e : ℚ) (hd0 : 0 ≤ d)
    (hd : geF32 (.num d) s.FrameSize = false) (he1 : e ≤ 60)
    (he : geF32 (.num e) s.FrameSize = true) :
    nSamples impl s s.FrameSize ≤ nSamples impl s (.num e) := by
  cases hfs : s.FrameSize with
  | num q =>
    rw [hfs] at hd he
    have hqe : q ≤ e := (geF32_num_num e q).mp he
    have hqd : ¬ q ≤ d := by
      intro hc
      rw [(geF32_num_num d q).mpr hc] at hd
      exact Bool.noConfusion hd
    have hq0 : 0 ≤ q := le_of_lt (lt_of_le_of_lt hd0 (not_le.mp hqd))
    exact nSamples_mono impl s q e hq0 hqe he1
  | posInf =>
    rw [hfs] at he
    simp [geF32] at he
  | negInf =>
    rw [hfs] at hd
    simp [geF32] at hd
  | nan =>
    rw [hfs] at he
    simp [geF32] at he

/-! ## Frame-size negotiation: evaluations -/

/-- The counts of the target and of the six legal durations at 48 samples per
millisecond. -/
theorem nSamples_at_48 {Stream Decoder : Type} (impl : F32 → Nat) (s : OggStream Stream Decoder)
    (hp : samplesPerMs s = 48) :
    nSamples impl s (.num 60) = 2880 ∧ nSamples impl s (.num 40) = 1920 ∧
      nSamples impl s (.num 20) = 960 ∧ nSamples impl s (.num 10) = 480 ∧
      nSamples impl s (.num 5) = 240 ∧ nSamples impl s (.num (5 / 2)) = 120 ∧
      nSamples impl s (.num 1) = 48 :=
  ⟨nSamples_exact impl s 60 48 2880 hp (by norm_num) (by norm_num) (by norm_num),
    nSamples_exact impl s 40 48 1920 hp (by norm_num) (by norm_num) (by norm_num),
    nSamples_exact impl s 20 48 960 hp (by norm_num) (by norm_num) (by norm_num),
    nSamples_exact impl s 10 48 480 hp (by norm_num) (by norm_num) (by norm_num),
    nSamples_exact impl s 5 48 240 hp (by norm_num) (by norm_num) (by norm_num),
    nSamples_exact impl s (5 / 2) 48 120 hp (by norm_num) (by norm_num) (by norm_num),
    nSamples_exact impl s 1 48 48 hp (by norm_num) (by norm_num) (by norm_num)⟩

theorem samplesPerMs_48000 {Stream Decoder : Type} (s : OggStream Stream Decoder)
    (hr : s.SampleRate = 48000) (hc : s.Channels = 1) : samplesPerMs s = 48 := by
  simp [samplesPerMs, hr, hc]

/-- Which legal durations a 20 ms target makes the scan skip. -/
theorem geF32_twenty :
    geF32 (.num 60) (.num 20) = true ∧ geF32 (.num 40) (.num 20) = true ∧
      geF32 (.num 20) (.num 20) = true ∧ geF32 (.num 10) (.num 20) = false ∧
      geF32 (.num 5) (.num 20) = false ∧ geF32 (.num (5 / 2)) (.num 20) = false := by
  refine ⟨?_, ?_, ?_, ?_, ?_, ?_⟩ <;> simp [geF32] <;> norm_num

/-- The scan of a 20 ms target, given the counts of the three shorter durations. -/
theorem scanFrameSizes_twenty {Stream Decoder : Type} (impl : F32 → Nat)
    (s : OggStream Stream Decoder) (samples : Nat) (hf : s.FrameSize = .num 20) :
    scanFrameSizes impl s samples FrameSizes =
      if nSamples impl s (.num 10) ≤ samples then some (toInt (nSamples impl s (.num 10)))
      else if nSamples impl s (.num 5) ≤ samples then some (toInt (nSamples impl s (.num 5)))
      else if nSamples impl s (.num (5 / 2)) ≤ samples then
        some (toInt (nSamples impl s (.num (5 / 2))))
      else none := by
  obtain ⟨g60, g40, g20, g10, g5, g2⟩ := geF32_twenty
  unfold FrameSizes
  simp only [scanFrameSizes, hf, g60, g40, g20, g10, g5, g2, if_true, Bool.false_eq_true,
    if_false]

/-- The three calls of the spec's example, on any session with a 20 ms target at
48000 Hz, one channel. -/
theorem getFrameSamples_at_48 {Stream Decoder : Type} (impl : F32 → Nat)
    (s : OggStream Stream Decoder) (hf : s.FrameSize = .num 20) (hr : s.SampleRate = 48000)
    (hc : s.Channels = 1) :
    getFrameSamples impl s 960 = .ok 960 ∧ getFrameSamples impl s 500 = .ok 480 ∧
      getFrameSamples impl s 50 = .error (.noValidFrameSize 50 1 48000) ∧
      getFrameSamples impl s 120 = .ok 120 ∧ getFrameSamples impl s 1000 = .ok 960 := by
  obtain ⟨h60, h40, h20, h10, h5, h2, _⟩ := nSamples_at_48 impl s (samplesPerMs_48000 s hr hc)
  have hn : nSamples impl s s.FrameSize = 960 := by rw [hf]; exact h20
  have t960 : toInt 960 = 960 := toInt_of_lt _ (by norm_num)
  have t480 : toInt 480 = 480 := toInt_of_lt _ (by norm_num)
  have t120 : toInt 120 = 120 := toInt_of_lt _ (by norm_num)
  have hscan := scanFrameSizes_twenty impl s
  refine ⟨?_, ?_, ?_, ?_, ?_⟩
  · unfold getFrameSamples
    rw [hn, if_pos (le_refl _), t960]
  · have a1 : ¬ (960 ≤ 500) := by norm_num
    have a2 : (480 : ℕ) ≤ 500 := by norm_num
    unfold getFrameSamples
    rw [hn, if_neg a1, hscan 500 hf, h10, if_pos a2, t480]
  · have a1 : ¬ (960 ≤ 50) := by norm_num
    have a2 : ¬ ((480 : ℕ) ≤ 50) := by norm_num
    have a3 : ¬ ((240 : ℕ) ≤ 50) := by norm_num
    have a4 : ¬ ((120 : ℕ) ≤ 50) := by norm_num
    unfold getFrameSamples
    rw [hn, if_neg a1, hscan 50 hf, h10, h5, h2, if_neg a2, if_neg a3, if_neg a4, hr, hc]
  · have a1 : ¬ (960 ≤ 120) := by norm_num
    have a2 : ¬ ((480 : ℕ) ≤ 120) := by norm_num
    have a3 : ¬ ((240 : ℕ) ≤ 120) := by norm_num
    unfold getFrameSamples
    rw [hn, if_neg a1, hscan 120 hf, h10, h5, h2, if_neg a2, if_neg a3, if_pos (le_refl _), t120]
  · have a1 : (960 : ℕ) ≤ 1000 := by norm_num
    unfold getFrameSamples
    rw [hn, if_pos a1, t960]

/-- Evaluation of a rounding: `x` lies in the binade of `2^k` and `x / 2^(k-23)`
lies between the integers `f` and `f + 1`. -/
theorem roundF32_binade (x : ℚ) (k f : ℤ) (h1 : (2 : ℚ) ^ k ≤ x) (h2 : x < 2 ^ (k + 1))
    (hk : -126 ≤ k) (hk1 : k ≤ 126) (hf1 : (f : ℚ) ≤ x / 2 ^ (k - 23))
    (hf2 : x / 2 ^ (k - 23) < f + 1) :
    roundF32 x = .num
      (((if x / 2 ^ (k - 23) - f < 1 / 2 then f else if 1 / 2 < x / 2 ^ (k - 23) - f then f + 1
        else if f % 2 = 0 then f else f + 1 : ℤ) : ℚ) * 2 ^ (k - 23)) := by
  have hx : 0 ≤ x := le_trans (le_of_lt (two_zpow_pos k)) h1
  have hb := roundMag_le_two_zpow (k + 1) (by omega) hx (le_of_lt h2)
  have hlt : roundMag x < 2 ^ 128 := by
    have h3 : (2 : ℚ) ^ (k + 1) ≤ 2 ^ (127 : ℤ) := zpow_le_zpow_right₀ (by norm_num) (by omega)
    have h4 : (2 : ℚ) ^ (127 : ℤ) < 2 ^ 128 := by norm_num
    linarith
  rw [roundF32_of_nonneg hx hlt, roundMag_of_binade h1 h2 hk, roundHalfEven_eq _ f hf1 hf2]

/-- The product `20 * 4294967` is a tie between two `float32` values and rounds
to the even one, 85899344. -/
theorem roundF32_85899340 : roundF32 85899340 = .num 85899344 := by
  have h := roundF32_binade 85899340 26 10737417 (by norm_num) (by norm_num) (by norm_num)
    (by norm_num) (by norm_num) (by norm_num)
  rw [h]
  norm_num

/-- The product `10 * 4294967` is a tie as well and rounds to 42949672. -/
theorem roundF32_42949670 : roundF32 42949670 = .num 42949672 := by
  have h := roundF32_binade 42949670 25 10737417 (by norm_num) (by norm_num) (by norm_num)
    (by norm_num) (by norm_num) (by norm_num)
  rw [h]
  norm_num

theorem toInt_two_pow : toInt 9223372036854775808 = -9223372036854775808 := by
  simp only [toInt]
  norm_num

theorem samplesPerMs_mkSession (sampleRate channels p : Nat) (fs : F32)
    (h : channels * sampleRate % 2 ^ 64 / 1000 = p) :
    samplesPerMs (mkSession sampleRate channels fs) = p := h

/-- A target of `2^40` ms at 8388608000 Hz, one channel: its count is `2^63`, and
the count of 60 ms is 503316480. The values multiplied and their products are
`float32` values. -/
theorem nSamples_wrap (impl : F32 → Nat) :
    nSamples impl (mkSession 8388608000 1 (.num 1099511627776)) (.num 1099511627776) =
        9223372036854775808 ∧
      nSamples impl (mkSession 8388608000 1 (.num 1099511627776)) (.num 60) = 503316480 := by
  have hp : samplesPerMs (mkSession 8388608000 1 (.num 1099511627776)) = 8388608 :=
    samplesPerMs_mkSession _ _ _ _ (by norm_num)
  have r1 : roundF32 (1099511627776 * ((8388608 : ℕ) : ℚ)) =
      .num ((9223372036854775808 : ℕ) : ℚ) := by
    have h := roundF32_dyadic 1 63 (by norm_num) (by norm_num) (by norm_num)
    have e : ((1 : ℕ) : ℚ) * 2 ^ (63 : ℤ) = 1099511627776 * ((8388608 : ℕ) : ℚ) := by norm_num
    have e2 : ((1 : ℕ) : ℚ) * 2 ^ (63 : ℤ) = ((9223372036854775808 : ℕ) : ℚ) := by norm_num
    rw [e2] at h
    rw [← e, e2]
    exact h
  have r2 : roundF32 (60 * ((8388608 : ℕ) : ℚ)) = .num ((503316480 : ℕ) : ℚ) := by
    have h := roundF32_dyadic 15 25 (by norm_num) (by norm_num) (by norm_num)
    have e : ((15 : ℕ) : ℚ) * 2 ^ (25 : ℤ) = 60 * ((8388608 : ℕ) : ℚ) := by norm_num
    have e2 : ((15 : ℕ) : ℚ) * 2 ^ (25 : ℤ) = ((503316480 : ℕ) : ℚ) := by norm_num
    rw [e2] at h
    rw [← e, e2]
    exact h
  have b1 : (((9223372036854775808 : ℕ) : ℚ)) < 2 ^ 64 := by norm_num
  have b2 : (((503316480 : ℕ) : ℚ)) < 2 ^ 64 := by norm_num
  constructor
  · rw [nSamples_eval impl _ 1099511627776 _ 8388608 hp (by norm_num) r1 (Nat.cast_nonneg _) b1,
      Nat.floor_natCast]
  · rw [nSamples_eval impl _ 60 _ 8388608 hp (by norm_num) r2 (Nat.cast_nonneg _) b2,
      Nat.floor_natCast]

/-- A target of `2^40` ms at 8388608000 Hz, one channel, with `2^63` samples
available: the `uint` result `2^63` is returned as the `int` value `-2^63`. -/
theorem getFrameSamples_wrap (impl : F32 → Nat) :
    getFrameSamples impl (mkSession 8388608000 1 (.num 1099511627776)) 9223372036854775808 =
      .ok (-9223372036854775808) := by
  have hn : nSamples impl (mkSession 8388608000 1 (.num 1099511627776))
      (mkSession 8388608000 1 (.num 1099511627776)).FrameSize = 9223372036854775808 :=
    (nSamples_wrap impl).1
  unfold getFrameSamples
  rw [hn, if_pos (le_refl _), toInt_two_pow]

/-- The counts at 44 samples per millisecond. -/
theorem nSamples_at_44 {Stream Decoder : Type} (impl : F32 → Nat) (s : OggStream Stream Decoder)
    (hp : samplesPerMs s = 44) :
    nSamples impl s (.num 20) = 880 ∧ nSamples impl s (.num 10) = 440 :=
  ⟨nSamples_exact impl s 20 44 880 hp (by norm_num) (by norm_num) (by norm_num),
    nSamples_exact impl s 10 44 440 hp (by norm_num) (by norm_num) (by norm_num)⟩

/-- The counts at 4294967 samples per millisecond, where the products for 20 ms
and 10 ms are rounded. -/
theorem nSamples_at_4294967 {Stream Decoder : Type} (impl : F32 → Nat)
    (s : OggStream Stream Decoder) (hp : samplesPerMs s = 4294967) :
    nSamples impl s (.num 20) = 85899344 ∧ nSamples impl s (.num 10) = 42949672 := by
  have r1 : roundF32 (20 * ((4294967 : ℕ) : ℚ)) = .num ((85899344 : ℕ) : ℚ) := by
    have e : (20 : ℚ) * ((4294967 : ℕ) : ℚ) = 85899340 := by norm_num
    rw [e, roundF32_85899340]
    norm_num
  have r2 : roundF32 (10 * ((4294967 : ℕ) : ℚ)) = .num ((42949672 : ℕ) : ℚ) := by
    have e : (10 : ℚ) * ((4294967 : ℕ) : ℚ) = 42949670 := by norm_num
    rw [e, roundF32_42949670]
    norm_num
  constructor
  · rw [nSamples_eval impl s 20 _ 4294967 hp (by norm_num) r1 (Nat.cast_nonneg _) (by norm_num),
      Nat.floor_natCast]
  · rw [nSamples_eval impl s 10 _ 4294967 hp (by norm_num) r2 (Nat.cast_nonneg _) (by norm_num),
      Nat.floor_natCast]

/-! ## Claims on the frame-size negotiation -/

/-- C3, as the code has it: let `p` be the `uint` value `Channels*SampleRate/1000`
(integer division) and let the target be a number `q >= 0`; when the `float32`
arithmetic is exact (`p` is below `2^24` and the product `q * p` is a `float32`),
and `ideal = floor(q * p)` is at most `availableSamples` and below `2^63`,
`getFrameSamples` returns exactly `ideal`; `ideal` is the spec's `idealSamples`
whenever `Channels*SampleRate` does not overflow and is a multiple of 1000. -/
theorem getFrameSamples_ideal {Stream Decoder : Type} (impl : F32 → Nat)
    (s : OggStream Stream Decoder) (samples : Nat) (q : ℚ) (p : ℕ)
    (hfs : s.FrameSize = .num q) (hq : 0 ≤ q) (hp : samplesPerMs s = p) (hp24 : p < 2 ^ 24)
    (hexact : roundF32 (q * (p : ℚ)) = .num (q * (p : ℚ)))
    (hfit : ⌊q * (p : ℚ)⌋₊ ≤ samples) (hint : ⌊q * (p : ℚ)⌋₊ < 2 ^ 63) :
    getFrameSamples impl s samples = .ok ((⌊q * (p : ℚ)⌋₊ : Nat) : Int) ∧
      (s.Channels * s.SampleRate < 2 ^ 64 → 1000 ∣ s.Channels * s.SampleRate →
        ⌊q * (p : ℚ)⌋₊ = specSamples s q) := by
  have hnn : (0 : ℚ) ≤ q * (p : ℚ) := mul_nonneg hq (Nat.cast_nonneg _)
  have hlt : q * (p : ℚ) < 2 ^ 64 := by
    have h1 := (Nat.floor_lt hnn).mp hint
    have h2 : (((2 ^ 63 : Nat) : ℚ)) < 2 ^ 64 := by norm_num
    exact lt_trans h1 h2
  have hn : nSamples impl s s.FrameSize = ⌊q * (p : ℚ)⌋₊ := by
    rw [hfs]
    exact nSamples_eval impl s q _ p hp hp24 hexact hnn hlt
  constructor
  · unfold getFrameSamples
    rw [hn]
    simp only [hfit, if_true, toInt_of_lt _ hint]
  · intro hov hdvd
    have hp1 : p = s.Channels * s.SampleRate / 1000 := by
      rw [← hp]
      unfold samplesPerMs
      rw [Nat.mod_eq_of_lt hov]
    unfold specSamples
    rw [hp1, Nat.cast_div hdvd (by norm_num)]
    congr 1
    push_cast
    ring

/-- Witness for C3 at 44100 Hz, one channel, 20 ms and 882 available samples. -/
theorem getFrameSamples_ideal_witness :
    (mkSession 44100 1 (.num 20)).FrameSize = .num 20 ∧
      samplesPerMs (mkSession 44100 1 (.num 20)) = 44 ∧
      roundF32 (20 * ((44 : ℕ) : ℚ)) = .num (20 * ((44 : ℕ) : ℚ)) ∧
      getFrameSamples (fun _ => 0) (mkSession 44100 1 (.num 20)) 882 =
        .ok ((⌊(20 : ℚ) * ((44 : ℕ) : ℚ)⌋₊ : Nat) : Int) := by
  have hp : samplesPerMs (mkSession 44100 1 (.num 20)) = 44 :=
    samplesPerMs_mkSession _ _ _ _ (by norm_num)
  have e : (20 : ℚ) * ((44 : ℕ) : ℚ) = ((880 : ℕ) : ℚ) := by norm_num
  have hx : roundF32 (20 * ((44 : ℕ) : ℚ)) = .num (20 * ((44 : ℕ) : ℚ)) := by
    rw [e]
    exact roundF32_natCast 880 (by norm_num)
  have hfl : ⌊(20 : ℚ) * ((44 : ℕ) : ℚ)⌋₊ = 880 := by
    rw [e, Nat.floor_natCast]
  exact ⟨rfl, hp, hx,
    (getFrameSamples_ideal (fun _ => 0) (mkSession 44100 1 (.num 20)) 882 20 44 rfl (by norm_num)
      hp (by norm_num) hx (by rw [hfl]; norm_num) (by rw [hfl]; norm_num)).1⟩

theorem specSamples_mkSession (sampleRate channels : Nat) (fs : F32) (d : ℚ) (n : ℕ)
    (h1 : (n : ℚ) ≤ d * (channels : ℚ) * (sampleRate : ℚ) / 1000)
    (h2 : d * (channels : ℚ) * (sampleRate : ℚ) / 1000 < (n : ℚ) + 1) :
    specSamples (mkSession sampleRate channels fs) d = n := by
  unfold specSamples
  have h0 : (0 : ℚ) ≤ d * (channels : ℚ) * (sampleRate : ℚ) / 1000 :=
    le_trans (Nat.cast_nonneg n) h1
  exact (Nat.floor_eq_iff h0).mpr ⟨h1, h2⟩

/-- At 4294967000 Hz, one channel and a 20 ms target, with 85899340 samples
available, the target's count 85899344 does not fit and the scan returns the
10 ms count 42949672. -/
theorem getFrameSamples_rounded (impl : F32 → Nat) :
    getFrameSamples impl (mkSession 4294967000 1 (.num 20)) 85899340 = .ok 42949672 := by
  have hp : samplesPerMs (mkSession 4294967000 1 (.num 20)) = 4294967 :=
    samplesPerMs_mkSession _ _ _ _ (by norm_num)
  obtain ⟨h20, h10⟩ := nSamples_at_4294967 impl _ hp
  have hn : nSamples impl (mkSession 4294967000 1 (.num 20))
      (mkSession 4294967000 1 (.num 20)).FrameSize = 85899344 := h20
  have t : toInt 42949672 = 42949672 := toInt_of_lt _ (by norm_num)
  have hnofit : ¬ (85899344 ≤ 85899340) := by norm_num
  have g60 : geF32 (.num 60) (mkSession 4294967000 1 (.num 20)).FrameSize = true := by
    show geF32 (.num 60) (.num 20) = true
    rw [geF32_num_num]
    norm_num
  have g40 : geF32 (.num 40) (mkSession 4294967000 1 (.num 20)).FrameSize = true := by
    show geF32 (.num 40) (.num 20) = true
    rw [geF32_num_num]
    norm_num
  have g20 : geF32 (.num 20) (mkSession 4294967000 1 (.num 20)).FrameSize = true := by
    show geF32 (.num 20) (.num 20) = true
    rw [geF32_num_num]
  have g10 : geF32 (.num 10) (mkSession 4294967000 1 (.num 20)).FrameSize = false := by
    show geF32 (.num 10) (.num 20) = false
    simp [geF32]
    norm_num
  have hscan : scanFrameSizes impl (mkSession 4294967000 1 (.num 20)) 85899340 FrameSizes =
      some 42949672 := by
    unfold FrameSizes
    have hle : (42949672 : ℕ) ≤ 85899340 := by norm_num
    simp only [scanFrameSizes, g60, g40, g20, g10, if_true, Bool.false_eq_true, if_false, h10,
      hle, t]
  unfold getFrameSamples
  rw [hn, if_neg hnofit, hscan]

/-- C3 as stated fails: at 44100 Hz, one channel and a 20 ms target the spec's
`idealSamples` is 882, yet with 882 samples available the code returns 880; at
4294967000 Hz and 20 ms it is 85899340, yet with 85899340 samples available the
code returns 42949672; and with a target of `2^40` ms at 8388608000 Hz it is
`2^63`, yet with `2^63` samples available the code returns `-2^63`. -/
theorem getFrameSamples_ideal_counterexample :
    (specSamples (mkSession 44100 1 (.num 20)) 20 = 882 ∧
      ∀ impl, getFrameSamples impl (mkSession 44100 1 (.num 20)) 882 = .ok 880) ∧
    (specSamples (mkSession 4294967000 1 (.num 20)) 20 = 85899340 ∧
      ∀ impl, getFrameSamples impl (mkSession 4294967000 1 (.num 20)) 85899340 =
        .ok 42949672) ∧
    (specSamples (mkSession 8388608000 1 (.num 1099511627776)) 1099511627776 =
        9223372036854775808 ∧
      ∀ impl, getFrameSamples impl (mkSession 8388608000 1 (.num 1099511627776))
        9223372036854775808 = .ok (-9223372036854775808)) := by
  refine ⟨⟨?_, fun impl => ?_⟩, ⟨?_, fun impl => getFrameSamples_rounded impl⟩,
    ⟨?_, fun impl => getFrameSamples_wrap impl⟩⟩
  · exact specSamples_mkSession _ _ _ _ 882 (by norm_num) (by norm_num)
  · have hp : samplesPerMs (mkSession 44100 1 (.num 20)) = 44 :=
      samplesPerMs_mkSession _ _ _ _ (by norm_num)
    have hn : nSamples impl (mkSession 44100 1 (.num 20))
        (mkSession 44100 1 (.num 20)).FrameSize = 880 := (nSamples_at_44 impl _ hp).1
    have t : toInt 880 = 880 := toInt_of_lt _ (by norm_num)
    unfold getFrameSamples
    rw [hn, if_pos (by norm_num), t]
  · exact specSamples_mkSession _ _ _ _ 85899340 (by norm_num) (by norm_num)
  · exact specSamples_mkSession _ _ _ _ 9223372036854775808 (by norm_num) (by norm_num)

/-- C4, as the code has it: whenever `getFrameSamples(availableSamples)` succeeds
with result `r`, `r <= availableSamples`, and `r` is non-negative when
`availableSamples < 2^63`. -/
theorem getFrameSamples_bounds {Stream Decoder : Type}
    (impl : F32 → Nat) (s : OggStream Stream Decoder) (samples : Nat)
    (r : Int) (h : getFrameSamples impl s samples = .ok r) :
    r ≤ (samples : Int) ∧ (samples < 2 ^ 63 → 0 ≤ r) := by
  have key : ∃ u : Nat, u ≤ samples ∧ r = toInt u := by
    rcases getFrameSamples_ok_cases impl s samples r h with ⟨hfit, hr⟩ | ⟨_, hscan⟩
    · exact ⟨_, hfit, hr⟩
    · obtain ⟨d, _, _, hfit, hr⟩ := scanFrameSizes_some impl s samples FrameSizes r hscan
      exact ⟨_, hfit, hr⟩
  obtain ⟨u, hu, hr⟩ := key
  constructor
  · rw [hr]
    exact le_trans (toInt_le _) (by exact_mod_cast hu)
  · intro hs
    rw [hr, toInt_of_lt _ (lt_of_le_of_lt hu hs)]
    exact Int.natCast_nonneg _

/-- Witness for C4 at 48000 Hz, one channel, 20 ms and 500 available samples. -/
theorem getFrameSamples_bounds_witness :
    getFrameSamples (fun _ => 0) (mkSession 48000 1 (.num 20)) 500 = .ok 480 ∧
      (480 : Int) ≤ ((500 : Nat) : Int) ∧ (500 < 2 ^ 63 → (0 : Int) ≤ 480) := by
  have h : getFrameSamples (fun _ => 0) (mkSession 48000 1 (.num 20)) 500 = .ok 480 :=
    (getFrameSamples_at_48 (fun _ => 0) (mkSession 48000 1 (.num 20)) rfl rfl rfl).2.1
  exact ⟨h, getFrameSamples_bounds (fun _ => 0) (mkSession 48000 1 (.num 20)) 500 480 h⟩

/-- C4 as stated fails: with a target of `2^40` ms at 8388608000 Hz, one channel,
and `2^63` samples available, `getFrameSamples` succeeds with the negative
result `-2^63`. -/
theorem getFrameSamples_bounds_counterexample :
    (∀ impl, getFrameSamples impl (mkSession 8388608000 1 (.num 1099511627776))
        9223372036854775808 = .ok (-9223372036854775808)) ∧
      ¬ ((0 : Int) ≤ -9223372036854775808) :=
  ⟨fun impl => getFrameSamples_wrap impl, by norm_num⟩

/-- C5, as the code has it: when the configured target does not fit (its sample
count exceeds `availableSamples`) and `getFrameSamples` succeeds with result
`r`, then, with the sample count of a duration taken as the code computes it
(`nSamples`), `r` is the sample count of some duration in `FrameSizes`,
`r <= availableSamples`, and every duration in `FrameSizes` whose sample count
is `<= availableSamples` has a sample count `<= r`. -/
theorem getFrameSamples_fallback_largest {Stream Decoder : Type}
    (impl : F32 → Nat) (s : OggStream Stream Decoder)
    (samples : Nat) (r : Int) (hnofit : samples < nSamples impl s s.FrameSize)
    (h : getFrameSamples impl s samples = .ok r) :
    ∃ d ∈ FrameSizes, r = ((nSamples impl s (.num d) : Nat) : Int) ∧
      nSamples impl s (.num d) ≤ samples ∧
      ∀ e ∈ FrameSizes, nSamples impl s (.num e) ≤ samples →
        nSamples impl s (.num e) ≤ nSamples impl s (.num d) := by
  rcases getFrameSamples_ok_cases impl s samples r h with ⟨hfit, _⟩ | ⟨_, hscan⟩
  · exact absurd hfit (not_le.mpr hnofit)
  · obtain ⟨d, hd, hns, hfit, hr, hmax⟩ :=
      scanFrameSizes_largest impl s samples FrameSizes r FrameSizes_range FrameSizes_sorted hscan
    refine ⟨d, hd, hr, hfit, ?_⟩
    intro e he hefit
    by_cases hskip : geF32 (.num e) s.FrameSize = true
    · have hle := nSamples_le_of_skipped impl s d e (FrameSizes_range d hd).1 hns
        (FrameSizes_range e he).2 hskip
      omega
    · exact hmax e he (by simpa using hskip) hefit

/-- Witness for C5 at 48000 Hz, one channel, 20 ms and 500 available samples. -/
theorem getFrameSamples_fallback_largest_witness :
    500 < nSamples (fun _ => 0) (mkSession 48000 1 (.num 20))
        (mkSession 48000 1 (.num 20)).FrameSize ∧
      getFrameSamples (fun _ => 0) (mkSession 48000 1 (.num 20)) 500 = .ok 480 ∧
      ∃ d ∈ FrameSizes,
        (480 : Int) = ((nSamples (fun _ => 0) (mkSession 48000 1 (.num 20)) (.num d) : Nat) : Int) ∧
        nSamples (fun _ => 0) (mkSession 48000 1 (.num 20)) (.num d) ≤ 500 ∧
        ∀ e ∈ FrameSizes, nSamples (fun _ => 0) (mkSession 48000 1 (.num 20)) (.num e) ≤ 500 →
          nSamples (fun _ => 0) (mkSession 48000 1 (.num 20)) (.num e) ≤
            nSamples (fun _ => 0) (mkSession 48000 1 (.num 20)) (.num d) := by
  have h1 : 500 < nSamples (fun _ => 0) (mkSession 48000 1 (.num 20))
      (mkSession 48000 1 (.num 20)).FrameSize := by
    have := (nSamples_at_48 (fun _ => 0) (mkSession 48000 1 (.num 20))
      (samplesPerMs_48000 _ rfl rfl)).2.2.1
    show 500 < nSamples (fun _ => 0) (mkSession 48000 1 (.num 20)) (.num 20)
    rw [this]
    norm_num
  have h2 : getFrameSamples (fun _ => 0) (mkSession 48000 1 (.num 20)) 500 = .ok 480 :=
    (getFrameSamples_at_48 (fun _ => 0) (mkSession 48000 1 (.num 20)) rfl rfl rfl).2.1
  exact ⟨h1, h2,
    getFrameSamples_fallback_largest (fun _ => 0) (mkSession 48000 1 (.num 20)) 500 480 h1 h2⟩

/-- The counts of the six legal durations at 44100 Hz, one channel, by the
spec's conversion. -/
theorem specSamples_at_44100 (fs : F32) :
    specSamples (mkSession 44100 1 fs) 60 = 2646 ∧ specSamples (mkSession 44100 1 fs) 40 = 1764 ∧
      specSamples (mkSession 44100 1 fs) 20 = 882 ∧ specSamples (mkSession 44100 1 fs) 10 = 441 ∧
      specSamples (mkSession 44100 1 fs) 5 = 220 ∧
      specSamples (mkSession 44100 1 fs) (5 / 2) = 110 :=
  ⟨specSamples_mkSession _ _ _ _ 2646 (by norm_num) (by norm_num),
    specSamples_mkSession _ _ _ _ 1764 (by norm_num) (by norm_num),
    specSamples_mkSession _ _ _ _ 882 (by norm_num) (by norm_num),
    specSamples_mkSession _ _ _ _ 441 (by norm_num) (by norm_num),
    specSamples_mkSession _ _ _ _ 220 (by norm_num) (by norm_num),
    specSamples_mkSession _ _ _ _ 110 (by norm_num) (by norm_num)⟩

/-- At 44100 Hz, one channel and a 20 ms target, with 441 samples available, the
target's count 880 does not fit and the scan returns the 10 ms count 440. -/
theorem getFrameSamples_at_44100 (impl : F32 → Nat) :
    getFrameSamples impl (mkSession 44100 1 (.num 20)) 441 = .ok 440 := by
  have hp : samplesPerMs (mkSession 44100 1 (.num 20)) = 44 :=
    samplesPerMs_mkSession _ _ _ _ (by norm_num)
  obtain ⟨h20, h10⟩ := nSamples_at_44 impl _ hp
  have hn : nSamples impl (mkSession 44100 1 (.num 20))
      (mkSession 44100 1 (.num 20)).FrameSize = 880 := h20
  have t : toInt 440 = 440 := toInt_of_lt _ (by norm_num)
  have a1 : ¬ (880 ≤ 441) := by norm_num
  have a2 : (440 : ℕ) ≤ 441 := by norm_num
  unfold getFrameSamples
  rw [hn, if_neg a1, scanFrameSizes_twenty impl _ 441 rfl, h10, if_pos a2, t]

/-- At 44100 Hz, one channel, no duration in `FrameSizes` has 440 samples by the
spec's conversion. -/
theorem specSamples_ne_440 (fs : F32) :
    ∀ d ∈ FrameSizes, specSamples (mkSession 44100 1 fs) d ≠ 440 := by
  obtain ⟨s60, s40, s20, s10, s5, s2⟩ := specSamples_at_44100 fs
  intro d hd
  simp only [FrameSizes, List.mem_cons, List.mem_singleton, List.not_mem_nil, or_false] at hd
  rcases hd with h | h | h | h | h | h <;> subst h
  · rw [s60]; norm_num
  · rw [s40]; norm_num
  · rw [s20]; norm_num
  · rw [s10]; norm_num
  · rw [s5]; norm_num
  · rw [s2]; norm_num

/-- C5 as stated fails when the sample count of a duration is the spec's
`duration * channels * sampleRate / 1000`: at 44100 Hz, one channel and a 20 ms
target (882 samples) with 441 samples available, the code returns 440, which is
the count of no duration in `FrameSizes`, while the 10 ms count 441 fits. -/
theorem getFrameSamples_fallback_largest_counterexample :
    441 < specSamples (mkSession 44100 1 (.num 20)) 20 ∧
      (∀ impl, getFrameSamples impl (mkSession 44100 1 (.num 20)) 441 = .ok 440) ∧
      (∀ d ∈ FrameSizes, specSamples (mkSession 44100 1 (.num 20)) d ≠ 440) ∧
      ((10 : ℚ) ∈ FrameSizes ∧ specSamples (mkSession 44100 1 (.num 20)) 10 ≤ 441 ∧
        440 < specSamples (mkSession 44100 1 (.num 20)) 10) := by
  obtain ⟨_, _, s20, s10, _, _⟩ := specSamples_at_44100 (.num 20)
  exact ⟨by rw [s20]; norm_num, fun impl => getFrameSamples_at_44100 impl,
    specSamples_ne_440 (.num 20), by simp [FrameSizes], by rw [s10], by rw [s10]; norm_num⟩

/-- C6, as the code has it: with the sample count of a duration taken as the code
computes it (`nSamples`), when the configured target's own sample count exceeds
`availableSamples` and no duration in `FrameSizes` yields a sample count
`<= availableSamples`, `getFrameSamples(availableSamples)` fails with the error. -/
theorem getFrameSamples_error {Stream Decoder : Type}
    (impl : F32 → Nat) (s : OggStream Stream Decoder) (samples : Nat)
    (hnofit : samples < nSamples impl s s.FrameSize)
    (hnone : ∀ d ∈ FrameSizes, samples < nSamples impl s (.num d)) :
    getFrameSamples impl s samples =
      .error (.noValidFrameSize samples s.Channels s.SampleRate) := by
  have hscan : scanFrameSizes impl s samples FrameSizes = none :=
    (scanFrameSizes_none impl s samples FrameSizes).mpr (fun d hd _ => hnone d hd)
  unfold getFrameSamples
  rw [if_neg (not_le.mpr hnofit), hscan]

/-- Every legal duration needs more than 50 samples at 48000 Hz, one channel. -/
theorem nSamples_gt_fifty (impl : F32 → Nat) (fs : F32) :
    ∀ d ∈ FrameSizes, 50 < nSamples impl (mkSession 48000 1 fs) (.num d) := by
  obtain ⟨h60, h40, h20, h10, h5, h2, _⟩ :=
    nSamples_at_48 impl (mkSession 48000 1 fs) (samplesPerMs_48000 _ rfl rfl)
  intro d hd
  simp only [FrameSizes, List.mem_cons, List.mem_singleton, List.not_mem_nil, or_false] at hd
  rcases hd with h | h | h | h | h | h <;> subst h
  · rw [h60]; norm_num
  · rw [h40]; norm_num
  · rw [h20]; norm_num
  · rw [h10]; norm_num
  · rw [h5]; norm_num
  · rw [h2]; norm_num

/-- Witness for C6 at 48000 Hz, one channel, 20 ms and 50 available samples. -/
theorem getFrameSamples_error_witness :
    50 < nSamples (fun _ => 0) (mkSession 48000 1 (.num 20))
        (mkSession 48000 1 (.num 20)).FrameSize ∧
      (∀ d ∈ FrameSizes, 50 < nSamples (fun _ => 0) (mkSession 48000 1 (.num 20)) (.num d)) ∧
      getFrameSamples (fun _ => 0) (mkSession 48000 1 (.num 20)) 50 =
        .error (.noValidFrameSize 50 1 48000) := by
  have h1 : 50 < nSamples (fun _ => 0) (mkSession 48000 1 (.num 20))
      (mkSession 48000 1 (.num 20)).FrameSize :=
    nSamples_gt_fifty _ (.num 20) 20 (by simp [FrameSizes])
  exact ⟨h1, nSamples_gt_fifty _ (.num 20),
    getFrameSamples_error (fun _ => 0) (mkSession 48000 1 (.num 20)) 50 h1
      (nSamples_gt_fifty _ (.num 20))⟩

/-- At 44100 Hz, four channels and a 20 ms target, with 440 samples available,
the code returns the count it computes for 2.5 ms, 440. -/
theorem getFrameSamples_four_channels (impl : F32 → Nat) :
    getFrameSamples impl (mkSession 44100 4 (.num 20)) 440 = .ok 440 := by
  have hp : samplesPerMs (mkSession 44100 4 (.num 20)) = 176 :=
    samplesPerMs_mkSession _ _ _ _ (by norm_num)
  have h20 : nSamples impl (mkSession 44100 4 (.num 20)) (.num 20) = 3520 :=
    nSamples_exact impl _ 20 176 3520 hp (by norm_num) (by norm_num) (by norm_num)
  have h10 : nSamples impl (mkSession 44100 4 (.num 20)) (.num 10) = 1760 :=
    nSamples_exact impl _ 10 176 1760 hp (by norm_num) (by norm_num) (by norm_num)
  have h5 : nSamples impl (mkSession 44100 4 (.num 20)) (.num 5) = 880 :=
    nSamples_exact impl _ 5 176 880 hp (by norm_num) (by norm_num) (by norm_num)
  have h2 : nSamples impl (mkSession 44100 4 (.num 20)) (.num (5 / 2)) = 440 :=
    nSamples_exact impl _ (5 / 2) 176 440 hp (by norm_num) (by norm_num) (by norm_num)
  have hn : nSamples impl (mkSession 44100 4 (.num 20))
      (mkSession 44100 4 (.num 20)).FrameSize = 3520 := h20
  have t : toInt 440 = 440 := toInt_of_lt _ (by norm_num)
  have a1 : ¬ (3520 ≤ 440) := by norm_num
  have a2 : ¬ ((1760 : ℕ) ≤ 440) := by norm_num
  have a3 : ¬ ((880 : ℕ) ≤ 440) := by norm_num
  unfold getFrameSamples
  rw [hn, if_neg a1, scanFrameSizes_twenty impl _ 440 rfl, h10, h5, h2, if_neg a2, if_neg a3,
    if_pos (le_refl _), t]

/-- C6 as stated fails: at 48000 Hz, one channel and a 1 ms target, no duration
in `FrameSizes` yields a sample count `<= 50`, yet `getFrameSamples(50)` succeeds
and returns 48; and at 44100 Hz, four channels and a 20 ms target, no duration
in `FrameSizes` yields, by the spec's conversion, a sample count `<= 440`, yet
`getFrameSamples(440)` succeeds and returns 440. -/
theorem getFrameSamples_error_counterexample :
    ((∀ impl, ∀ d ∈ FrameSizes, 50 < nSamples impl (mkSession 48000 1 (.num 1)) (.num d)) ∧
      ∀ impl, getFrameSamples impl (mkSession 48000 1 (.num 1)) 50 = .ok 48) ∧
    ((∀ d ∈ FrameSizes, 440 < specSamples (mkSession 44100 4 (.num 20)) d) ∧
      ∀ impl, getFrameSamples impl (mkSession 44100 4 (.num 20)) 440 = .ok 440) := by
  refine ⟨⟨fun impl => nSamples_gt_fifty impl (.num 1), fun impl => ?_⟩,
    ⟨?_, fun impl => getFrameSamples_four_channels impl⟩⟩
  · have h1 := (nSamples_at_48 impl (mkSession 48000 1 (.num 1))
      (samplesPerMs_48000 _ rfl rfl)).2.2.2.2.2.2
    have hn : nSamples impl (mkSession 48000 1 (.num 1))
        (mkSession 48000 1 (.num 1)).FrameSize = 48 := h1
    have t : toInt 48 = 48 := toInt_of_lt _ (by norm_num)
    have a1 : (48 : ℕ) ≤ 50 := by norm_num
    unfold getFrameSamples
    rw [hn, if_pos a1, t]
  · intro d hd
    simp only [FrameSizes, List.mem_cons, List.mem_singleton, List.not_mem_nil, or_false] at hd
    rcases hd with h | h | h | h | h | h <;> subst h
    · rw [specSamples_mkSession _ _ _ _ 10584 (by norm_num) (by norm_num)]; norm_num
    · rw [specSamples_mkSession _ _ _ _ 7056 (by norm_num) (by norm_num)]; norm_num
    · rw [specSamples_mkSession _ _ _ _ 3528 (by norm_num) (by norm_num)]; norm_num
    · rw [specSamples_mkSession _ _ _ _ 1764 (by norm_num) (by norm_num)]; norm_num
    · rw [specSamples_mkSession _ _ _ _ 882 (by norm_num) (by norm_num)]; norm_num
    · rw [specSamples_mkSession _ _ _ _ 441 (by norm_num) (by norm_num)]; norm_num

/-- C7 does not hold of the code for a negative target: the call
`getFrameSamples(960)` at 48000 Hz, one channel, with the target -20 ms, on an
implementation whose `uint(-960.0)` exceeds 960, fails, although the 2.5 ms count
is 120 and the 20 ms count is 960. The target's count does not fit and the scan
skips all six legal durations, of which the comment in the loop says that they
cannot work. -/
theorem getFrameSamples_negative_target (impl : F32 → Nat)
    (himpl : 960 < impl (.num (-960)) % 2 ^ 64) :
    nSamples impl (mkSession 48000 1 (.num (-20))) (.num (5 / 2)) = 120 ∧
      nSamples impl (mkSession 48000 1 (.num (-20))) (.num 20) = 960 ∧
      geF32 (.num 20) (mkSession 48000 1 (.num (-20))).FrameSize = true ∧
      getFrameSamples impl (mkSession 48000 1 (.num (-20))) 960 =
        .error (.noValidFrameSize 960 1 48000) := by
  have hp : samplesPerMs (mkSession 48000 1 (.num (-20))) = 48 := samplesPerMs_48000 _ rfl rfl
  obtain ⟨_, _, h20, _, _, h2, _⟩ := nSamples_at_48 impl (mkSession 48000 1 (.num (-20))) hp
  have hge : ∀ d ∈ FrameSizes, geF32 (.num d) (mkSession 48000 1 (.num (-20))).FrameSize = true := by
    intro d hd
    show geF32 (.num d) (.num (-20)) = true
    rw [geF32_num_num]
    linarith [(FrameSizes_range d hd).1]
  have hround : roundF32 (-20 * ((48 : ℕ) : ℚ)) = .num (-960) := by
    have hm : roundMag 960 = 960 := by
      have := roundMag_dyadic 960 0 (by norm_num) (by norm_num)
      simpa using this
    have e : (-20 : ℚ) * ((48 : ℕ) : ℚ) = -960 := by norm_num
    have hneg : ¬ ((0 : ℚ) ≤ -960) := by norm_num
    have hlt : roundMag (-(-960)) < 2 ^ 128 := by
      rw [neg_neg, hm]
      norm_num
    rw [e]
    simp only [roundF32, hneg, if_false, hlt, if_true]
    rw [neg_neg, hm]
  have hn : nSamples impl (mkSession 48000 1 (.num (-20)))
      (mkSession 48000 1 (.num (-20))).FrameSize = impl (.num (-960)) % 2 ^ 64 := by
    show nSamples impl (mkSession 48000 1 (.num (-20))) (.num (-20)) = _
    unfold nSamples uintToF32
    rw [hp, roundF32_natCast 48 (by norm_num)]
    show floatToUint impl (roundF32 (-20 * ((48 : ℕ) : ℚ))) = _
    rw [hround]
    have hc : ¬ ((-1 : ℚ) < -960 ∧ (-960 : ℚ) < 2 ^ 64) := by norm_num
    simp only [floatToUint, hc, if_false]
  have hscan : scanFrameSizes impl (mkSession 48000 1 (.num (-20))) 960 FrameSizes = none := by
    rw [scanFrameSizes_none]
    intro d hd hfalse
    rw [hge d hd] at hfalse
    exact Bool.noConfusion hfalse
  refine ⟨h2, h20, hge 20 (by simp [FrameSizes]), ?_⟩
  unfold getFrameSamples
  rw [hn, if_neg (not_le.mpr himpl), hscan]
  rfl

/-- Witness: the gc compiler on amd64 gives `uint(-960.0) = 2^64 - 960`. -/
theorem getFrameSamples_negative_target_witness :
    960 < gcAmd64 (.num (-960)) % 2 ^ 64 ∧
      nSamples gcAmd64 (mkSession 48000 1 (.num (-20))) (.num (5 / 2)) = 120 ∧
      nSamples gcAmd64 (mkSession 48000 1 (.num (-20))) (.num 20) = 960 ∧
      geF32 (.num 20) (mkSession 48000 1 (.num (-20))).FrameSize = true ∧
      getFrameSamples gcAmd64 (mkSession 48000 1 (.num (-20))) 960 =
        .error (.noValidFrameSize 960 1 48000) := by
  have hg : gcAmd64 (.num (-960)) = 18446744073709550656 := by
    have hc : (-960 : ℚ) < 0 ∧ -2 ^ 63 ≤ (-960 : ℚ) := by norm_num
    have hf : ⌊-(-960 : ℚ)⌋₊ = 960 := by
      rw [neg_neg]
      exact Nat.floor_natCast 960
    simp only [gcAmd64, hc, and_self, if_true, hf]
    norm_num
  have h : 960 < gcAmd64 (.num (-960)) % 2 ^ 64 := by
    rw [hg]
    norm_num
  exact ⟨h, getFrameSamples_negative_target gcAmd64 h⟩

/-- When the target is a number that is not negative, NaN or the positive
infinity, the call succeeds as soon as the 2.5 ms count fits. -/
theorem getFrameSamples_succeeds_of_nonneg {Stream Decoder : Type} (impl : F32 → Nat)
    (s : OggStream Stream Decoder) (samples : Nat)
    (hfs : ∀ q, s.FrameSize = .num q → 0 ≤ q) (hni : s.FrameSize ≠ .negInf)
    (h : nSamples impl s (.num (5 / 2)) ≤ samples) :
    ∃ r, getFrameSamples impl s samples = .ok r := by
  unfold getFrameSamples
  by_cases hfit : nSamples impl s s.FrameSize ≤ samples
  · exact ⟨_, by rw [if_pos hfit]⟩
  · rw [if_neg hfit]
    cases hscan : scanFrameSizes impl s samples FrameSizes with
    | some r => exact ⟨r, rfl⟩
    | none =>
      exfalso
      have hall := (scanFrameSizes_none impl s samples FrameSizes).mp hscan
      have hmem : (5 / 2 : ℚ) ∈ FrameSizes := by simp [FrameSizes]
      by_cases hskip : geF32 (.num (5 / 2)) s.FrameSize = true
      · cases hq : s.FrameSize with
        | num q =>
          rw [hq] at hskip hfit
          have hle : q ≤ 5 / 2 := (geF32_num_num _ _).mp hskip
          have hmono := nSamples_mono impl s q (5 / 2) (hfs q hq) hle (by norm_num)
          exact hfit (le_trans hmono h)
        | posInf =>
          rw [hq] at hskip
          simp [geF32] at hskip
        | negInf => exact hni hq
        | nan =>
          rw [hq] at hskip
          simp [geF32] at hskip
      · exact absurd h (not_le.mpr (hall _ hmem (by simpa using hskip)))

/-- C8: for the session with `FrameSize` 20 ms, `SampleRate` 48000 and `Channels`
1, `getFrameSamples(960)` returns 960, `getFrameSamples(500)` returns 480 and
`getFrameSamples(50)` fails with the error. -/
theorem getFrameSamples_examples {Stream Decoder : Type}
    (impl : F32 → Nat) (s : OggStream Stream Decoder)
    (hf : s.FrameSize = .num 20) (hr : s.SampleRate = 48000) (hc : s.Channels = 1) :
    getFrameSamples impl s 960 = .ok 960 ∧
      getFrameSamples impl s 500 = .ok 480 ∧
      getFrameSamples impl s 50 = .error (.noValidFrameSize 50 1 48000) :=
  ⟨(getFrameSamples_at_48 impl s hf hr hc).1, (getFrameSamples_at_48 impl s hf hr hc).2.1,
    (getFrameSamples_at_48 impl s hf hr hc).2.2.1⟩

/-- Witness for C8 on the session without collaborator state. -/
theorem getFrameSamples_examples_witness :
    (mkSession 48000 1 (.num 20)).FrameSize = .num 20 ∧
      (mkSession 48000 1 (.num 20)).SampleRate = 48000 ∧
      (mkSession 48000 1 (.num 20)).Channels = 1 ∧
      getFrameSamples (fun _ => 0) (mkSession 48000 1 (.num 20)) 960 = .ok 960 ∧
      getFrameSamples (fun _ => 0) (mkSession 48000 1 (.num 20)) 500 = .ok 480 ∧
      getFrameSamples (fun _ => 0) (mkSession 48000 1 (.num 20)) 50 =
        .error (.noValidFrameSize 50 1 48000) :=
  ⟨rfl, rfl, rfl, getFrameSamples_examples (fun _ => 0) (mkSession 48000 1 (.num 20)) rfl rfl rfl⟩

/-! ## `Decode` and `Flush` -/

theorem decodeLoop_packets {Stream Decoder Info Err : Type} (A : OggAdapter Stream Err)
    (C : OpusCodec Decoder Info Err) {st st1 : Stream} {d d1 : Decoder} {outs : List (List Nat)}
    (h : DecodesPackets A C st d outs st1 d1) :
    ∀ (fuel : Nat) (acc : List Nat),
      decodeLoop A C (outs.length + fuel) st d acc = decodeLoop A C fuel st1 d1 (acc ++ outs.flatten) := by
  induction h with
  | nil st d =>
    intro fuel acc
    simp
  | cons hout hdec _ ih =>
    intro fuel acc
    rw [List.length_cons, Nat.add_right_comm]
    simp only [decodeLoop, hout, hdec]
    rw [ih fuel, List.flatten_cons, List.append_assoc]

theorem DecodesPackets_length {Stream Decoder Info Err : Type} (A : OggAdapter Stream Err)
    (C : OpusCodec Decoder Info Err) {st st1 : Stream} {d d1 : Decoder} {outs : List (List Nat)}
    (h : DecodesPackets A C st d outs st1 d1) : outs.flatten.length = 2048 * outs.length := by
  induction h with
  | nil st d => simp
  | cons hout hdec _ ih =>
    have hlen := congrArg (fun x => x.2.1.length) hdec
    simp only [C.Decode_length, List.length_replicate] at hlen
    rw [List.flatten_cons, List.length_append, ih, ← hlen, List.length_cons]
    omega

/-- C11: when the adapter accepts the submitted bytes, then yields `n` packets
that the codec decodes without error into the buffers `outs`, and then reports
no packet, `Decode` (given more than `n` iterations) succeeds and returns the
concatenation of `outs` in extraction order, whose length is `2048 * n`,
whatever the codec reports about each packet. -/
theorem Decode_drains {Stream Decoder Info Err : Type} (A : OggAdapter Stream Err)
    (C : OpusCodec Decoder Info Err) (fuel : Nat) (s : OggStream Stream Decoder) (oggBytes : List Nat)
    (st0 st1 st2 : Stream) (d1 : Decoder) (outs : List (List Nat))
    (hsub : A.SubmitDecodeBytes s.stream oggBytes = (st0, none))
    (hpk : DecodesPackets A C st0 s.decoder outs st1 d1)
    (hend : A.DecodeBytesOut st1 = (st2, none, none))
    (hfuel : outs.length < fuel) :
    Decode A C fuel s oggBytes =
        some ({ s with stream := st2, decoder := d1 }, some outs.flatten, none) ∧
      outs.flatten.length = 2048 * outs.length := by
  refine ⟨?_, DecodesPackets_length A C hpk⟩
  obtain ⟨k, rfl⟩ : ∃ k, fuel = outs.length + (k + 1) := ⟨fuel - outs.length - 1, by omega⟩
  simp only [Decode, hsub]
  rw [decodeLoop_packets A C hpk]
  simp only [decodeLoop, hend, List.nil_append]

/-- Witness for C11: two packets drained in one call give 4096 bytes. -/
theorem Decode_drains_witness :
    Decode queueAdapter countingCodec 3 (queueSession [] 0) [5, 6] =
        some ({ queueSession [] 0 with stream := [], decoder := 2 },
          some [(List.replicate 2048 0).map (fun _ => 5),
            (List.replicate 2048 0).map (fun _ => 6)].flatten, none) ∧
      [(List.replicate 2048 0).map (fun _ => 5),
        (List.replicate 2048 0).map (fun _ => 6)].flatten.length = 2048 * 2 :=
  Decode_drains queueAdapter countingCodec 3 (queueSession [] 0) [5, 6] [[5], [6]] [] [] 2
    [(List.replicate 2048 0).map (fun _ => 5), (List.replicate 2048 0).map (fun _ => 6)] rfl
    (@DecodesPackets.cons _ _ _ _ queueAdapter countingCodec [[5], [6]] [[6]] [] 0 1 2 [5] _ 1 _
      rfl rfl
      (@DecodesPackets.cons _ _ _ _ queueAdapter countingCodec [[6]] [] [] 1 2 2 [6] _ 1 _
        rfl rfl (DecodesPackets.nil [] 2)))
    rfl (by decide)

/-- C12: when, after `k - 1` packets decoded without error in the same call, the
extraction of the `k`-th packet fails or the codec fails to decode it, `Decode`
(given at least `k` iterations) returns that error and a `nil` result: nothing
decoded from the earlier packets is returned. -/
theorem Decode_error {Stream Decoder Info Err : Type} (A : OggAdapter Stream Err)
    (C : OpusCodec Decoder Info Err) (fuel : Nat) (s : OggStream Stream Decoder) (oggBytes : List Nat)
    (st0 st1 st2 : Stream) (d1 d2 : Decoder) (outs : List (List Nat)) (e : Err)
    (hsub : A.SubmitDecodeBytes s.stream oggBytes = (st0, none))
    (hpk : DecodesPackets A C st0 s.decoder outs st1 d1)
    (hfail : (∃ buf, A.DecodeBytesOut st1 = (st2, buf, some e) ∧ d2 = d1) ∨
      (∃ buf bytesOut info, A.DecodeBytesOut st1 = (st2, some buf, none) ∧
        C.Decode d1 buf (List.replicate 2048 0) = (d2, bytesOut, info, some e)))
    (hfuel : outs.length < fuel) :
    Decode A C fuel s oggBytes = some ({ s with stream := st2, decoder := d2 }, none, some e) := by
  obtain ⟨k, rfl⟩ : ∃ k, fuel = outs.length + (k + 1) := ⟨fuel - outs.length - 1, by omega⟩
  rcases hfail with ⟨buf, hout, rfl⟩ | ⟨buf, bytesOut, info, hout, hdec⟩
  · simp only [Decode, hsub]
    rw [decodeLoop_packets A C hpk]
    simp only [decodeLoop, hout]
  · simp only [Decode, hsub]
    rw [decodeLoop_packets A C hpk]
    simp only [decodeLoop, hout, hdec]

/-- Witness for C12: of the three packets `[5]`, `[0]`, `[7]` the extraction of
the second fails; the call returns the error and no bytes. -/
theorem Decode_error_witness :
    Decode queueAdapter countingCodec 2 (queueSession [] 0) [5, 0, 7] =
      some ({ queueSession [] 0 with stream := [[7]], decoder := 1 }, none, some 2) :=
  Decode_error queueAdapter countingCodec 2 (queueSession [] 0) [5, 0, 7] [[5], [0], [7]]
    [[0], [7]] [[7]] 1 1 [(List.replicate 2048 0).map (fun _ => 5)] 2 rfl
    (@DecodesPackets.cons _ _ _ _ queueAdapter countingCodec [[5], [0], [7]] [[0], [7]] [[0], [7]]
      0 1 1 [5] _ 1 _ rfl rfl (DecodesPackets.nil [[0], [7]] 1))
    (Or.inl ⟨none, rfl, rfl⟩) (by decide)

/-- C13: when the adapter rejects the submitted bytes, `Decode` returns exactly
the adapter's error and a `nil` result, and the session differs only in the
adapter state left by the submission: the decoder state is unchanged. The same
holds with any other extraction method, any other codec and any number of
iterations allowed, so no packet is extracted and the codec is not invoked. -/
theorem Decode_submit_error {Stream Decoder Info Err : Type} (A A1 : OggAdapter Stream Err)
    (C C1 : OpusCodec Decoder Info Err) (fuel fuel1 : Nat) (s : OggStream Stream Decoder)
    (oggBytes : List Nat) (st0 : Stream) (e : Err)
    (hsub : A.SubmitDecodeBytes s.stream oggBytes = (st0, some e))
    (hsame : A1.SubmitDecodeBytes = A.SubmitDecodeBytes) :
    Decode A C fuel s oggBytes = some ({ s with stream := st0 }, none, some e) ∧
      Decode A1 C1 fuel1 s oggBytes = some ({ s with stream := st0 }, none, some e) ∧
      ({ s with stream := st0 } : OggStream Stream Decoder).decoder = s.decoder := by
  refine ⟨?_, ?_, rfl⟩
  · simp only [Decode, hsub]
  · simp only [Decode, hsame, hsub]

/-- Witness for C13: the queue adapter refuses an empty submission. -/
theorem Decode_submit_error_witness :
    Decode queueAdapter countingCodec 5 (queueSession [[3]] 0) [] =
        some ({ queueSession [[3]] 0 with stream := [[3]] }, none, some 1) ∧
      Decode endlessAdapter failingCodec 0 (queueSession [[3]] 0) [] =
        some ({ queueSession [[3]] 0 with stream := [[3]] }, none, some 1) ∧
      ({ queueSession [[3]] 0 with stream := [[3]] } : OggStream (List (List Nat)) Nat).decoder =
        (queueSession [[3]] 0).decoder :=
  Decode_submit_error queueAdapter endlessAdapter countingCodec failingCodec 5 0
    (queueSession [[3]] 0) [] [[3]] 1 rfl rfl

/-- C14: when the adapter accepts the submitted bytes and then has no packet
ready, `Decode` (given at least one iteration) returns a zero-length, non-`nil`
result and no error, and the decoder state is unchanged; the same holds with any
other codec, so the codec is not invoked. -/
theorem Decode_no_packet {Stream Decoder Info Err : Type} (A : OggAdapter Stream Err)
    (C C1 : OpusCodec Decoder Info Err) (fuel : Nat) (s : OggStream Stream Decoder)
    (oggBytes : List Nat) (st0 st1 : Stream)
    (hsub : A.SubmitDecodeBytes s.stream oggBytes = (st0, none))
    (hend : A.DecodeBytesOut st0 = (st1, none, none)) (hfuel : 0 < fuel) :
    Decode A C fuel s oggBytes = some ({ s with stream := st1 }, some [], none) ∧
      Decode A C1 fuel s oggBytes = some ({ s with stream := st1 }, some [], none) ∧
      ({ s with stream := st1 } : OggStream Stream Decoder).decoder = s.decoder := by
  obtain ⟨k, rfl⟩ : ∃ k, fuel = k + 1 := ⟨fuel - 1, by omega⟩
  refine ⟨?_, ?_, rfl⟩ <;> simp only [Decode, hsub, decodeLoop, hend]

/-- Witness for C14: a submission of framing bytes only leaves no packet. -/
theorem Decode_no_packet_witness :
    Decode queueAdapter countingCodec 1 (queueSession [] 0) [255, 255] =
        some ({ queueSession [] 0 with stream := [] }, some [], none) ∧
      Decode queueAdapter failingCodec 1 (queueSession [] 0) [255, 255] =
        some ({ queueSession [] 0 with stream := [] }, some [], none) ∧
      ({ queueSession [] 0 with stream := [] } : OggStream (List (List Nat)) Nat).decoder =
        (queueSession [] 0).decoder :=
  Decode_no_packet queueAdapter countingCodec failingCodec 1 (queueSession [] 0) [255, 255] [] []
    rfl rfl (by decide)

/-- C15: `Flush` returns exactly the bytes of the adapter's flush operation; the
session differs only in the adapter state that operation leaves, so the decoder
state after `Flush` is the one before it. No codec is among the arguments of
`Flush`. -/
theorem Flush_spec {Stream Decoder Err : Type} (A : OggAdapter Stream Err)
    (s : OggStream Stream Decoder) :
    (Flush A s).2 = (A.Flush s.stream).2 ∧
      (Flush A s).1 = { s with stream := (A.Flush s.stream).1 } ∧
      (Flush A s).1.decoder = s.decoder :=
  ⟨rfl, rfl, rfl⟩

/-! ## Frame of the session operations -/

theorem nSamples_congr {S D S1 D1 : Type} (impl : F32 → Nat) (s : OggStream S D)
    (t : OggStream S1 D1) (hr : t.SampleRate = s.SampleRate) (hc : t.Channels = s.Channels)
    (fs : F32) : nSamples impl t fs = nSamples impl s fs := by
  simp only [nSamples, samplesPerMs, hr, hc]

theorem scanFrameSizes_congr {S D S1 D1 : Type} (impl : F32 → Nat) (s : OggStream S D)
    (t : OggStream S1 D1) (hr : t.SampleRate = s.SampleRate) (hc : t.Channels = s.Channels)
    (hf : t.FrameSize = s.FrameSize) (samples : Nat) :
    ∀ l : List ℚ, scanFrameSizes impl t samples l = scanFrameSizes impl s samples l := by
  intro l
  induction l with
  | nil => rfl
  | cons val rest ih =>
    simp only [scanFrameSizes, ih, hf, nSamples_congr impl s t hr hc]

theorem getFrameSamples_congr {S D S1 D1 : Type} (impl : F32 → Nat) (s : OggStream S D)
    (t : OggStream S1 D1) (hr : t.SampleRate = s.SampleRate) (hc : t.Channels = s.Channels)
    (hf : t.FrameSize = s.FrameSize) (samples : Nat) :
    getFrameSamples impl t samples = getFrameSamples impl s samples := by
  simp only [getFrameSamples, scanFrameSizes_congr impl s t hr hc hf, hf, hr, hc,
    nSamples_congr impl s t hr hc]

theorem Decode_fields {Stream Decoder Info Err : Type} (A : OggAdapter Stream Err)
    (C : OpusCodec Decoder Info Err) (fuel : Nat) (s s1 : OggStream Stream Decoder)
    (oggBytes : List Nat) (res : Option (List Nat) × Option Err)
    (h : Decode A C fuel s oggBytes = some (s1, res)) :
    ∃ st d, s1 = { s with stream := st, decoder := d } := by
  unfold Decode at h
  rcases hsub : A.SubmitDecodeBytes s.stream oggBytes with ⟨st0, _ | e⟩
  · rw [hsub] at h
    simp only at h
    rcases hloop : decodeLoop A C fuel st0 s.decoder [] with _ | ⟨st1, d1, out, err⟩
    · rw [hloop] at h
      exact Option.noConfusion h
    · rw [hloop] at h
      simp only [Option.some.injEq, Prod.mk.injEq] at h
      exact ⟨st1, d1, h.1.symm⟩
  · rw [hsub] at h
    simp only [Option.some.injEq, Prod.mk.injEq] at h
    exact ⟨st0, s.decoder, h.1.symm⟩

/-- C16: `Decode`, whether it returns a result or an error, and `Flush` leave the
fields `SampleRate`, `Channels`, `Bitrate`, `FrameSize` and `Complexity` as they
were; `getFrameSamples`, which assigns to no field and so has no session to
return, gives the same result on any two sessions with the same `SampleRate`,
`Channels` and `FrameSize`. -/
theorem session_config_unchanged {Stream Decoder Info Err S1 D1 : Type} (A : OggAdapter Stream Err)
    (C : OpusCodec Decoder Info Err) (fuel : Nat) (s : OggStream Stream Decoder)
    (oggBytes : List Nat) (impl : F32 → Nat) (samples : Nat) (t : OggStream S1 D1) :
    (∀ s1 res, Decode A C fuel s oggBytes = some (s1, res) →
        s1.SampleRate = s.SampleRate ∧ s1.Channels = s.Channels ∧ s1.Bitrate = s.Bitrate ∧
          s1.FrameSize = s.FrameSize ∧ s1.Complexity = s.Complexity) ∧
      ((Flush A s).1.SampleRate = s.SampleRate ∧ (Flush A s).1.Channels = s.Channels ∧
        (Flush A s).1.Bitrate = s.Bitrate ∧ (Flush A s).1.FrameSize = s.FrameSize ∧
        (Flush A s).1.Complexity = s.Complexity) ∧
      (t.SampleRate = s.SampleRate → t.Channels = s.Channels → t.FrameSize = s.FrameSize →
        getFrameSamples impl t samples = getFrameSamples impl s samples) := by
  refine ⟨?_, ⟨rfl, rfl, rfl, rfl, rfl⟩,
    fun hr hc hf => getFrameSamples_congr impl s t hr hc hf samples⟩
  intro s1 res h
  obtain ⟨st, d, rfl⟩ := Decode_fields A C fuel s s1 oggBytes res h
  exact ⟨rfl, rfl, rfl, rfl, rfl⟩

/-- Witness for C16: a call of `Decode` that returns bytes, one that returns an
error, and `getFrameSamples` on two sessions of different collaborators. -/
theorem session_config_unchanged_witness :
    (∃ s1 res, Decode queueAdapter countingCodec 3 (queueSession [] 0) [5, 6] = some (s1, res) ∧
        res.2 = none ∧ s1.SampleRate = 48000 ∧ s1.FrameSize = .num 20) ∧
      (∃ s1 res, Decode queueAdapter countingCodec 3 (queueSession [] 0) [5, 0] = some (s1, res) ∧
        res.2 = some 2 ∧ s1.SampleRate = 48000 ∧ s1.FrameSize = .num 20) ∧
      getFrameSamples (fun _ => 0) (mkSession 48000 1 (.num 20)) 500 =
        getFrameSamples (fun _ => 0) (queueSession [[1]] 7) 500 :=
  ⟨⟨_, _, rfl, rfl,
      ((session_config_unchanged queueAdapter countingCodec 3 (queueSession [] 0) [5, 6]
        (fun _ => 0) 500 (mkSession 48000 1 (.num 20))).1 _ _ rfl).1,
      ((session_config_unchanged queueAdapter countingCodec 3 (queueSession [] 0) [5, 6]
        (fun _ => 0) 500 (mkSession 48000 1 (.num 20))).1 _ _ rfl).2.2.2.1⟩,
    ⟨_, _, rfl, rfl,
      ((session_config_unchanged queueAdapter countingCodec 3 (queueSession [] 0) [5, 0]
        (fun _ => 0) 500 (mkSession 48000 1 (.num 20))).1 _ _ rfl).1,
      ((session_config_unchanged queueAdapter countingCodec 3 (queueSession [] 0) [5, 0]
        (fun _ => 0) 500 (mkSession 48000 1 (.num 20))).1 _ _ rfl).2.2.2.1⟩,
    (session_config_unchanged queueAdapter countingCodec 3 (queueSession [[1]] 7) [5]
      (fun _ => 0) 500 (mkSession 48000 1 (.num 20))).2.2 rfl rfl rfl⟩

/-! ## Frame-size negotiation: the search is non-increasing and monotone -/

theorem ltF32_of_not_ge (d : ℚ) (fs : F32) (hn : fs ≠ .nan)
    (h : geF32 (.num d) fs = false) : ltF32 (.num d) fs = true := by
  cases fs with
  | num q =>
    have hq : ¬ q ≤ d := fun hle => by
      rw [(geF32_num_num d q).mpr hle] at h
      exact Bool.noConfusion h
    simp only [ltF32, decide_eq_true_eq]
    exact not_le.mp hq
  | posInf => rfl
  | negInf => simp [geF32] at h
  | nan => exact absurd rfl hn

/-- A NaN target at 48000 Hz, one channel, with 5000 samples available, on an
implementation whose `uint(NaN)` exceeds 5000: the scan skips nothing, since no
comparison with NaN holds, and returns the 60 ms count. -/
theorem getFrameSamples_nan (impl : F32 → Nat) (himpl : 5000 < impl .nan % 2 ^ 64) :
    getFrameSamples impl (mkSession 48000 1 .nan) 5000 = .ok 2880 ∧
      ∀ d ∈ FrameSizes, ltF32 (.num d) (mkSession 48000 1 .nan).FrameSize = false := by
  have hp : samplesPerMs (mkSession 48000 1 .nan) = 48 := samplesPerMs_48000 _ rfl rfl
  have h60 := (nSamples_at_48 impl (mkSession 48000 1 .nan) hp).1
  have hn : nSamples impl (mkSession 48000 1 .nan) (mkSession 48000 1 .nan).FrameSize =
      impl .nan % 2 ^ 64 := by
    show nSamples impl (mkSession 48000 1 .nan) .nan = _
    unfold nSamples uintToF32
    rw [hp, roundF32_natCast 48 (by norm_num)]
    rfl
  have hskip : geF32 (.num 60) (mkSession 48000 1 .nan).FrameSize = false := rfl
  have hfit : nSamples impl (mkSession 48000 1 .nan) (.num 60) ≤ 5000 := by
    rw [h60]
    norm_num
  have t : toInt 2880 = 2880 := toInt_of_lt _ (by norm_num)
  have hscan : scanFrameSizes impl (mkSession 48000 1 .nan) 5000 FrameSizes = some 2880 := by
    unfold FrameSizes
    unfold scanFrameSizes
    rw [hskip]
    simp only [Bool.false_eq_true, if_false]
    rw [if_pos hfit, h60, t]
  refine ⟨?_, fun d _ => rfl⟩
  unfold getFrameSamples
  rw [hn, if_neg (not_le.mpr himpl), hscan]

/-- C17, as the code has it: when the configured target does not fit, a result of
`getFrameSamples` is the sample count, by the code's conversion, of a duration in
`FrameSizes` that the scan does not skip, which is strictly smaller than
`FrameSize` unless `FrameSize` is NaN, and it is smaller than the sample count of
every duration in `FrameSizes` that is `>= FrameSize`; and every successful
result, fallback or not, is `<=` the target's own sample count. -/
theorem getFrameSamples_nonincreasing {Stream Decoder : Type} (impl : F32 → Nat)
    (s : OggStream Stream Decoder) (samples : Nat) (r : Int)
    (h : getFrameSamples impl s samples = .ok r) :
    (samples < nSamples impl s s.FrameSize →
        ∃ d ∈ FrameSizes, geF32 (.num d) s.FrameSize = false ∧
          (s.FrameSize ≠ .nan → ltF32 (.num d) s.FrameSize = true) ∧
          r = ((nSamples impl s (.num d) : Nat) : Int) ∧
          ∀ e ∈ FrameSizes, geF32 (.num e) s.FrameSize = true →
            r < ((nSamples impl s (.num e) : Nat) : Int)) ∧
      r ≤ ((nSamples impl s s.FrameSize : Nat) : Int) := by
  rcases getFrameSamples_ok_cases impl s samples r h with ⟨hfit, hr⟩ | ⟨hnofit, hscan⟩
  · refine ⟨fun hlt => absurd hfit (not_le.mpr hlt), ?_⟩
    rw [hr]
    exact toInt_le _
  · obtain ⟨d, hd, hns, hfit, hr, _⟩ :=
      scanFrameSizes_largest impl s samples FrameSizes r FrameSizes_range FrameSizes_sorted hscan
    constructor
    · intro _
      refine ⟨d, hd, hns, fun hnan => ltF32_of_not_ge d s.FrameSize hnan hns, hr, ?_⟩
      intro e he hge
      have hle := nSamples_le_of_skipped impl s d e (FrameSizes_range d hd).1 hns
        (FrameSizes_range e he).2 hge
      rw [hr]
      exact_mod_cast lt_of_le_of_lt hfit (lt_of_lt_of_le hnofit hle)
    · rw [hr]
      exact_mod_cast le_of_lt (lt_of_le_of_lt hfit hnofit)

/-- Witness for C17 at 48000 Hz, one channel, 20 ms and 500 available samples. -/
theorem getFrameSamples_nonincreasing_witness :
    getFrameSamples (fun _ => 0) (mkSession 48000 1 (.num 20)) 500 = .ok 480 ∧
      (500 < nSamples (fun _ => 0) (mkSession 48000 1 (.num 20))
          (mkSession 48000 1 (.num 20)).FrameSize →
        ∃ d ∈ FrameSizes, geF32 (.num d) (mkSession 48000 1 (.num 20)).FrameSize = false ∧
          ((mkSession 48000 1 (.num 20)).FrameSize ≠ .nan →
            ltF32 (.num d) (mkSession 48000 1 (.num 20)).FrameSize = true) ∧
          (480 : Int) =
            ((nSamples (fun _ => 0) (mkSession 48000 1 (.num 20)) (.num d) : Nat) : Int) ∧
          ∀ e ∈ FrameSizes, geF32 (.num e) (mkSession 48000 1 (.num 20)).FrameSize = true →
            (480 : Int) <
              ((nSamples (fun _ => 0) (mkSession 48000 1 (.num 20)) (.num e) : Nat) : Int)) ∧
      (480 : Int) ≤ ((nSamples (fun _ => 0) (mkSession 48000 1 (.num 20))
        (mkSession 48000 1 (.num 20)).FrameSize : Nat) : Int) :=
  ⟨(getFrameSamples_at_48 (fun _ => 0) (mkSession 48000 1 (.num 20)) rfl rfl rfl).2.1,
    getFrameSamples_nonincreasing (fun _ => 0) (mkSession 48000 1 (.num 20)) 500 480
      (getFrameSamples_at_48 (fun _ => 0) (mkSession 48000 1 (.num 20)) rfl rfl rfl).2.1⟩

/-- C17 as stated fails when the sample count of a duration is the spec's
`duration * channels * sampleRate / 1000`: at 44100 Hz, one channel and a 20 ms
target, with 441 samples available, the target does not fit (882 by the spec's
conversion, 880 by the code's) and the fallback result is 440, which is the
count of no duration in `FrameSizes`. -/
theorem getFrameSamples_nonincreasing_counterexample :
    441 < specSamples (mkSession 44100 1 (.num 20)) 20 ∧
      (∀ impl, 441 < nSamples impl (mkSession 44100 1 (.num 20))
        (mkSession 44100 1 (.num 20)).FrameSize) ∧
      (∀ impl, getFrameSamples impl (mkSession 44100 1 (.num 20)) 441 = .ok 440) ∧
      ¬ ∃ d ∈ FrameSizes, ltF32 (.num d) (mkSession 44100 1 (.num 20)).FrameSize = true ∧
        specSamples (mkSession 44100 1 (.num 20)) d = 440 := by
  have s20 := (specSamples_at_44100 (.num 20)).2.2.1
  refine ⟨by rw [s20]; norm_num, fun impl => ?_, fun impl => getFrameSamples_at_44100 impl, ?_⟩
  · have hp : samplesPerMs (mkSession 44100 1 (.num 20)) = 44 :=
      samplesPerMs_mkSession _ _ _ _ (by norm_num)
    have hn : nSamples impl (mkSession 44100 1 (.num 20))
        (mkSession 44100 1 (.num 20)).FrameSize = 880 := (nSamples_at_44 impl _ hp).1
    rw [hn]
    norm_num
  · rintro ⟨d, hd, _, h⟩
    exact specSamples_ne_440 (.num 20) d hd h

theorem scanFrameSizes_mono {Stream Decoder : Type} (impl : F32 → Nat)
    (s : OggStream Stream Decoder) (a b : Nat) (hab : a ≤ b) :
    ∀ (l : List ℚ) (ra : Int), scanFrameSizes impl s a l = some ra →
      ∃ rb, scanFrameSizes impl s b l = some rb ∧ (b < 2 ^ 63 → ra ≤ rb) := by
  intro l
  induction l with
  | nil =>
    intro ra h
    exact Option.noConfusion h
  | cons val rest ih =>
    intro ra h
    unfold scanFrameSizes at h ⊢
    by_cases hskip : geF32 (.num val) s.FrameSize = true
    · simp only [hskip, if_true] at h ⊢
      exact ih ra h
    · have hskip1 : geF32 (.num val) s.FrameSize = false := by simpa using hskip
      rw [hskip1] at h ⊢
      simp only [Bool.false_eq_true, if_false] at h ⊢
      by_cases hfita : nSamples impl s (.num val) ≤ a
      · have hfitb : nSamples impl s (.num val) ≤ b := le_trans hfita hab
        rw [if_pos hfita] at h
        rw [if_pos hfitb]
        exact ⟨_, rfl, fun _ => le_of_eq (Option.some.inj h).symm⟩
      · rw [if_neg hfita] at h
        by_cases hfitb : nSamples impl s (.num val) ≤ b
        · rw [if_pos hfitb]
          refine ⟨_, rfl, fun hb => ?_⟩
          obtain ⟨d, _, _, hfitd, hr⟩ := scanFrameSizes_some impl s a rest ra h
          rw [hr, toInt_of_lt _ (lt_of_le_of_lt hfitb hb)]
          have h1 : toInt (nSamples impl s (.num d)) ≤ ((nSamples impl s (.num d) : Nat) : Int) :=
            toInt_le _
          have h2 : nSamples impl s (.num d) ≤ nSamples impl s (.num val) :=
            le_of_lt (lt_of_le_of_lt hfitd (not_le.mp hfita))
          exact le_trans h1 (by exact_mod_cast h2)
        · rw [if_neg hfitb]
          exact ih ra h

/-- A target of `2^40` ms at 8388608000 Hz, one channel, with `2^63 - 1` samples
available: the target's `2^63` samples do not fit and the scan returns the 60 ms
count, 503316480. -/
theorem getFrameSamples_below_wrap (impl : F32 → Nat) :
    getFrameSamples impl (mkSession 8388608000 1 (.num 1099511627776)) 9223372036854775807 =
      .ok 503316480 := by
  obtain ⟨hn0, h60⟩ := nSamples_wrap impl
  have hn : nSamples impl (mkSession 8388608000 1 (.num 1099511627776))
      (mkSession 8388608000 1 (.num 1099511627776)).FrameSize = 9223372036854775808 := hn0
  have hskip : geF32 (.num 60) (mkSession 8388608000 1 (.num 1099511627776)).FrameSize =
      false := by
    show geF32 (.num 60) (.num 1099511627776) = false
    simp only [geF32, decide_eq_false_iff_not]
    norm_num
  have hi : toInt 503316480 = 503316480 := toInt_of_lt _ (by norm_num)
  have hnofit : ¬ (9223372036854775808 ≤ 9223372036854775807) := by norm_num
  have hfit : nSamples impl (mkSession 8388608000 1 (.num 1099511627776)) (.num 60) ≤
      9223372036854775807 := by
    rw [h60]
    norm_num
  have hscan : scanFrameSizes impl (mkSession 8388608000 1 (.num 1099511627776))
      9223372036854775807 FrameSizes = some 503316480 := by
    unfold FrameSizes
    unfold scanFrameSizes
    rw [hskip]
    simp only [Bool.false_eq_true, if_false]
    rw [if_pos hfit, h60, hi]
  unfold getFrameSamples
  rw [hn, if_neg hnofit, hscan]

/-- C18, as the code has it: for `a <= b`, if `getFrameSamples(a)` succeeds with
result `r_a` then `getFrameSamples(b)` succeeds too, and its result `r_b` is
`>= r_a` when `b < 2^63`. -/
theorem getFrameSamples_mono {Stream Decoder : Type} (impl : F32 → Nat)
    (s : OggStream Stream Decoder) (a b : Nat) (ra : Int) (hab : a ≤ b)
    (ha : getFrameSamples impl s a = .ok ra) :
    ∃ rb, getFrameSamples impl s b = .ok rb ∧ (b < 2 ^ 63 → ra ≤ rb) := by
  rcases getFrameSamples_ok_cases impl s a ra ha with ⟨hfit, hr⟩ | ⟨hnofit, hscan⟩
  · refine ⟨toInt (nSamples impl s s.FrameSize), ?_, fun _ => le_of_eq hr⟩
    unfold getFrameSamples
    rw [if_pos (le_trans hfit hab)]
  · by_cases hfitb : nSamples impl s s.FrameSize ≤ b
    · refine ⟨toInt (nSamples impl s s.FrameSize), ?_, ?_⟩
      · unfold getFrameSamples
        rw [if_pos hfitb]
      · intro hb
        obtain ⟨d, _, _, hfit, hr⟩ := scanFrameSizes_some impl s a FrameSizes ra hscan
        rw [hr, toInt_of_lt _ (lt_of_le_of_lt hfitb hb)]
        have h1 : toInt (nSamples impl s (.num d)) ≤ ((nSamples impl s (.num d) : Nat) : Int) :=
          toInt_le _
        have h2 : nSamples impl s (.num d) ≤ nSamples impl s s.FrameSize :=
          le_of_lt (lt_of_le_of_lt hfit hnofit)
        exact le_trans h1 (by exact_mod_cast h2)
    · obtain ⟨rb, hrb, hle⟩ := scanFrameSizes_mono impl s a b hab FrameSizes ra hscan
      refine ⟨rb, ?_, hle⟩
      unfold getFrameSamples
      rw [if_neg hfitb, hrb]

/-- Witness for C18 at 48000 Hz, one channel, 20 ms: 500 and then 1000 samples
available. -/
theorem getFrameSamples_mono_witness :
    500 ≤ 1000 ∧ getFrameSamples (fun _ => 0) (mkSession 48000 1 (.num 20)) 500 = .ok 480 ∧
      ∃ rb, getFrameSamples (fun _ => 0) (mkSession 48000 1 (.num 20)) 1000 = .ok rb ∧
        (1000 < 2 ^ 63 → (480 : Int) ≤ rb) :=
  ⟨by norm_num, (getFrameSamples_at_48 (fun _ => 0) (mkSession 48000 1 (.num 20)) rfl rfl rfl).2.1,
    getFrameSamples_mono (fun _ => 0) (mkSession 48000 1 (.num 20)) 500 1000 480 (by norm_num)
      (getFrameSamples_at_48 (fun _ => 0) (mkSession 48000 1 (.num 20)) rfl rfl rfl).2.1⟩

/-- C18 as stated fails: with a target of `2^40` ms at 8388608000 Hz, one
channel, `getFrameSamples(2^63 - 1)` returns 503316480 and `getFrameSamples(2^63)`
returns `-2^63`. -/
theorem getFrameSamples_mono_counterexample :
    (9223372036854775807 : Nat) ≤ 9223372036854775808 ∧
      (∀ impl, getFrameSamples impl (mkSession 8388608000 1 (.num 1099511627776))
        9223372036854775807 = .ok 503316480) ∧
      (∀ impl, getFrameSamples impl (mkSession 8388608000 1 (.num 1099511627776))
        9223372036854775808 = .ok (-9223372036854775808)) ∧
      ¬ ((503316480 : Int) ≤ -9223372036854775808) :=
  ⟨by norm_num, fun impl => getFrameSamples_below_wrap impl,
    fun impl => getFrameSamples_wrap impl, by norm_num⟩

/-- Every duration in `FrameSizes` is an integer of at most 15 times a power of
two between `2^-1` and `2^3`. -/
theorem FrameSizes_dyadic (d : ℚ) (hd : d ∈ FrameSizes) :
    ∃ (m : ℕ) (j : ℤ), m ≤ 15 ∧ -1 ≤ j ∧ j ≤ 3 ∧ d = (m : ℚ) * 2 ^ j := by
  simp only [FrameSizes, List.mem_cons, List.mem_singleton, List.not_mem_nil, or_false] at hd
  rcases hd with h | h | h | h | h | h <;> subst h
  · exact ⟨15, 2, by norm_num, by norm_num, by norm_num, by norm_num⟩
  · exact ⟨5, 3, by norm_num, by norm_num, by norm_num, by norm_num⟩
  · exact ⟨5, 2, by norm_num, by norm_num, by norm_num, by norm_num⟩
  · exact ⟨5, 1, by norm_num, by norm_num, by norm_num, by norm_num⟩
  · exact ⟨5, 0, by norm_num, by norm_num, by norm_num, by norm_num⟩
  · exact ⟨5, -1, by norm_num, by norm_num, by norm_num, by norm_num⟩

/-- C19, for the sample rates at which the `float32` product is exact: for every
duration in `FrameSizes`, when `Channels * SampleRate` is a multiple of 1000
below 1118481000, the conversion of `getFrameSamples` gives
`floor(duration * floor(Channels * SampleRate / 1000))` and the same count as the
reference conversion `floor(duration * Channels * SampleRate / 1000)`. -/
theorem nSamples_eq_specSamples {Stream Decoder : Type} (impl : F32 → Nat)
    (s : OggStream Stream Decoder) (d : ℚ) (hd : d ∈ FrameSizes)
    (hdvd : 1000 ∣ s.Channels * s.SampleRate)
    (hsmall : s.Channels * s.SampleRate < 1118481000) :
    nSamples impl s (.num d) = ⌊d * ((s.Channels * s.SampleRate / 1000 : Nat) : ℚ)⌋₊ ∧
      nSamples impl s (.num d) = specSamples s d := by
  have hov : s.Channels * s.SampleRate < 2 ^ 64 := lt_trans hsmall (by norm_num)
  have hp : samplesPerMs s = s.Channels * s.SampleRate / 1000 := by
    unfold samplesPerMs
    rw [Nat.mod_eq_of_lt hov]
  have hp1 : s.Channels * s.SampleRate / 1000 < 1118481 :=
    Nat.div_lt_of_lt_mul (by omega)
  obtain ⟨m, j, hm, hj0, hj1, hdm⟩ := FrameSizes_dyadic d hd
  have hn : m * (s.Channels * s.SampleRate / 1000) < 2 ^ 24 := by
    have : m * (s.Channels * s.SampleRate / 1000) ≤ 15 * 1118480 :=
      Nat.mul_le_mul hm (by omega)
    omega
  have hprod : d * ((s.Channels * s.SampleRate / 1000 : Nat) : ℚ) =
      ((m * (s.Channels * s.SampleRate / 1000) : ℕ) : ℚ) * 2 ^ j := by
    rw [hdm]
    push_cast
    ring
  have hr : roundF32 (d * ((s.Channels * s.SampleRate / 1000 : Nat) : ℚ)) =
      .num (d * ((s.Channels * s.SampleRate / 1000 : Nat) : ℚ)) := by
    rw [hprod]
    exact roundF32_dyadic _ j hn (by omega) (by omega)
  have hd0 := (FrameSizes_range d hd)
  have hv0 : 0 ≤ d * ((s.Channels * s.SampleRate / 1000 : Nat) : ℚ) :=
    mul_nonneg hd0.1 (Nat.cast_nonneg _)
  have hv1 : d * ((s.Channels * s.SampleRate / 1000 : Nat) : ℚ) < 2 ^ 64 := by
    have h1 : ((s.Channels * s.SampleRate / 1000 : Nat) : ℚ) ≤ 1118481 := by
      exact_mod_cast le_of_lt hp1
    have h2 : d * ((s.Channels * s.SampleRate / 1000 : Nat) : ℚ) ≤ 60 * 1118481 :=
      mul_le_mul hd0.2 h1 (Nat.cast_nonneg _) (by norm_num)
    exact lt_of_le_of_lt h2 (by norm_num)
  have h1 : nSamples impl s (.num d) =
      ⌊d * ((s.Channels * s.SampleRate / 1000 : Nat) : ℚ)⌋₊ :=
    nSamples_eval impl s d _ _ hp (lt_trans hp1 (by norm_num)) hr hv0 hv1
  refine ⟨h1, ?_⟩
  rw [h1]
  unfold specSamples
  rw [Nat.cast_div hdvd (by norm_num)]
  congr 1
  push_cast
  ring

/-- Witness for C19 at 48000 Hz, two channels and 2.5 ms: 240 samples. -/
theorem nSamples_eq_specSamples_witness :
    (5 / 2 : ℚ) ∈ FrameSizes ∧
      1000 ∣ (mkSession 48000 2 (.num 20)).Channels * (mkSession 48000 2 (.num 20)).SampleRate ∧
      (mkSession 48000 2 (.num 20)).Channels * (mkSession 48000 2 (.num 20)).SampleRate <
        1118481000 ∧
      nSamples (fun _ => 0) (mkSession 48000 2 (.num 20)) (.num (5 / 2)) =
        specSamples (mkSession 48000 2 (.num 20)) (5 / 2) := by
  have hd : (5 / 2 : ℚ) ∈ FrameSizes := by simp [FrameSizes]
  have hdvd : 1000 ∣ (mkSession 48000 2 (.num 20)).Channels *
      (mkSession 48000 2 (.num 20)).SampleRate := ⟨96, by simp [mkSession]⟩
  have hsmall : (mkSession 48000 2 (.num 20)).Channels *
      (mkSession 48000 2 (.num 20)).SampleRate < 1118481000 := by simp [mkSession]
  exact ⟨hd, hdvd, hsmall,
    (nSamples_eq_specSamples (fun _ => 0) (mkSession 48000 2 (.num 20)) (5 / 2) hd hdvd hsmall).2⟩

/-- C19 as stated fails: at 4294967000 Hz, one channel, `Channels * SampleRate`
is a multiple of 1000 below `2^64` and the reference conversion gives 85899340
samples for 20 ms, but the product `20 * 4294967` is not a `float32` value and
the code's conversion gives 85899344. -/
theorem nSamples_eq_specSamples_counterexample :
    (20 : ℚ) ∈ FrameSizes ∧
      1000 ∣ (mkSession 4294967000 1 (.num 20)).Channels *
        (mkSession 4294967000 1 (.num 20)).SampleRate ∧
      (mkSession 4294967000 1 (.num 20)).Channels * (mkSession 4294967000 1 (.num 20)).SampleRate <
        2 ^ 64 ∧
      (∀ impl, nSamples impl (mkSession 4294967000 1 (.num 20)) (.num 20) = 85899344) ∧
      specSamples (mkSession 4294967000 1 (.num 20)) 20 = 85899340 := by
  refine ⟨by simp [FrameSizes], ⟨4294967, by simp [mkSession]⟩, by simp [mkSession],
    fun impl => ?_, specSamples_mkSession _ _ _ _ 85899340 (by norm_num) (by norm_num)⟩
  exact (nSamples_at_4294967 impl _ (samplesPerMs_mkSession _ _ _ _ (by norm_num))).1

end Opus
